import Mathlib

/-!
Verification development for the echo_messenger repository.

Shallow embedding of the client cryptographic codec layer
(client/src/utils/crypto.js) and the server room-session protocol
(server index: presence registry, likes, pins, history and file routes).

JavaScript strings are modelled as lists of Unicode scalar values
(`JStr := List Char`); byte buffers as lists of naturals below 256.
Platform primitives (AES-GCM, PBKDF2) are modelled as an abstract
backend structure whose contract properties appear as explicit
hypotheses of the theorems; everything the repository itself computes
(base64, UTF-8, trimming, splitting, SHA-256, the server state
machine) is embedded executably.
-/

/-- JavaScript string, as its sequence of Unicode scalar values. -/
abbrev JStr := List Char

/-! ## JavaScript helpers: trim, split -/

/-- Characters removed by JavaScript `String.prototype.trim`
(WhiteSpace and LineTerminator code points). -/
def jsIsWhite (c : Char) : Bool :=
  c.toNat ∈ [0x9, 0xA, 0xB, 0xC, 0xD, 0x20, 0xA0, 0x1680,
    0x2000, 0x2001, 0x2002, 0x2003, 0x2004, 0x2005, 0x2006, 0x2007,
    0x2008, 0x2009, 0x200A, 0x2028, 0x2029, 0x202F, 0x205F, 0x3000, 0xFEFF]

/-- JavaScript `s.trim()`: strip whitespace from both ends. -/
def jsTrim (s : JStr) : JStr :=
  ((s.dropWhile jsIsWhite).reverse.dropWhile jsIsWhite).reverse

/-- JavaScript `s.split(sep)` for a single-character separator. -/
def splitOnChar (sep : Char) : JStr → List JStr
  | [] => [[]]
  | c :: rest =>
    match splitOnChar sep rest with
    | [] => if c = sep then [[], []] else [[c]]
    | h :: t => if c = sep then [] :: h :: t else (c :: h) :: t

theorem splitOnChar_ne_nil (sep : Char) (s : JStr) : splitOnChar sep s ≠ [] := by
  cases s with
  | nil => simp [splitOnChar]
  | cons c rest =>
    simp only [splitOnChar]
    rcases h : splitOnChar sep rest with _ | ⟨a, b⟩ <;>
      by_cases hc : c = sep <;> simp [hc]

theorem splitOnChar_no_sep (sep : Char) (s : JStr) (h : sep ∉ s) :
    splitOnChar sep s = [s] := by
  induction s with
  | nil => rfl
  | cons c rest ih =>
    simp only [List.mem_cons, not_or] at h
    simp only [splitOnChar, ih h.2]
    have : ¬ c = sep := fun hc => h.1 hc.symm
    simp [this]

theorem splitOnChar_append (sep : Char) (s t : JStr) (h : sep ∉ s) :
    splitOnChar sep (s ++ sep :: t) = s :: splitOnChar sep t := by
  induction s with
  | nil =>
    simp only [List.nil_append, splitOnChar]
    rcases hsplit : splitOnChar sep t with _ | ⟨a, b⟩
    · exact absurd hsplit (splitOnChar_ne_nil sep t)
    · simp
  | cons c rest ih =>
    simp only [List.mem_cons, not_or] at h
    simp only [List.cons_append, splitOnChar, List.append_eq]
    rw [ih h.2]
    have : ¬ c = sep := fun hc => h.1 hc.symm
    simp [this]

/-! ## Base64, modelling the JavaScript `btoa`/`atob` used by
`bufToB64` and `b64ToBuf` in crypto.js -/

/-- The base64 alphabet, index to character. -/
def b64Alpha : List Char :=
  [ 'A', 'B', 'C', 'D', 'E', 'F', 'G', 'H', 'I', 'J', 'K', 'L', 'M',
    'N', 'O', 'P', 'Q', 'R', 'S', 'T', 'U', 'V', 'W', 'X', 'Y', 'Z',
    'a', 'b', 'c', 'd', 'e', 'f', 'g', 'h', 'i', 'j', 'k', 'l', 'm',
    'n', 'o', 'p', 'q', 'r', 's', 't', 'u', 'v', 'w', 'x', 'y', 'z',
    '0', '1', '2', '3', '4', '5', '6', '7', '8', '9', '+', '/' ]

/-- Character for a 6-bit value. -/
def b64EncChar (n : Nat) : Char := b64Alpha.getD n 'A'

/-- Value of a base64 character, `none` when outside the alphabet. -/
def b64DecChar (c : Char) : Option Nat := b64Alpha.indexOf? c

/-- bufToB64 (crypto.js): bytes to a base64 string with padding,
as `btoa` of the corresponding binary string. -/
def bufToB64 : List Nat → JStr
  | [] => []
  | [a] => [b64EncChar (a / 4), b64EncChar (a % 4 * 16), '=', '=']
  | [a, b] => [b64EncChar (a / 4), b64EncChar (a % 4 * 16 + b / 16),
               b64EncChar (b % 16 * 4), '=']
  | a :: b :: c :: rest =>
    b64EncChar (a / 4) :: b64EncChar (a % 4 * 16 + b / 16) ::
    b64EncChar (b % 16 * 4 + c / 64) :: b64EncChar (c % 64) :: bufToB64 rest

/-- b64ToBuf (crypto.js): base64 string to bytes; `none` models the
`InvalidCharacterError` thrown by `atob` on malformed input. -/
def b64ToBuf : JStr → Option (List Nat)
  | [] => some []
  | w :: x :: y :: z :: rest =>
    if y = '=' ∧ z = '=' ∧ rest = [] then do
      let vw ← b64DecChar w
      let vx ← b64DecChar x
      pure [vw * 4 + vx / 16]
    else if z = '=' ∧ rest = [] then do
      let vw ← b64DecChar w
      let vx ← b64DecChar x
      let vy ← b64DecChar y
      pure [vw * 4 + vx / 16, vx % 16 * 16 + vy / 4]
    else do
      let vw ← b64DecChar w
      let vx ← b64DecChar x
      let vy ← b64DecChar y
      let vz ← b64DecChar z
      let tail ← b64ToBuf rest
      pure ((vw * 4 + vx / 16) :: (vx % 16 * 16 + vy / 4) :: (vy % 4 * 64 + vz) :: tail)
  | _ => none

theorem b64DecChar_encChar {v : Nat} (h : v < 64) :
    b64DecChar (b64EncChar v) = some v := by
  interval_cases v <;> decide

theorem b64EncChar_mem_alpha {v : Nat} (h : v < 64) : b64EncChar v ∈ b64Alpha := by
  interval_cases v <;> decide

theorem b64EncChar_ne_pad {v : Nat} (h : v < 64) : b64EncChar v ≠ '=' := by
  interval_cases v <;> decide

theorem b64ToBuf_pad2 (w x : Char) :
    b64ToBuf [w, x, '=', '='] = (do
      let vw ← b64DecChar w
      let vx ← b64DecChar x
      pure [vw * 4 + vx / 16]) := by
  simp [b64ToBuf]

theorem b64ToBuf_pad1 (w x y : Char) (hy : y ≠ '=') :
    b64ToBuf [w, x, y, '='] = (do
      let vw ← b64DecChar w
      let vx ← b64DecChar x
      let vy ← b64DecChar y
      pure [vw * 4 + vx / 16, vx % 16 * 16 + vy / 4]) := by
  simp [b64ToBuf, hy]

theorem b64ToBuf_full (w x y z : Char) (rest : JStr)
    (hy : y ≠ '=') (hz : z ≠ '=') :
    b64ToBuf (w :: x :: y :: z :: rest) = (do
      let vw ← b64DecChar w
      let vx ← b64DecChar x
      let vy ← b64DecChar y
      let vz ← b64DecChar z
      let tail ← b64ToBuf rest
      pure ((vw * 4 + vx / 16) :: (vx % 16 * 16 + vy / 4) ::
        (vy % 4 * 64 + vz) :: tail)) := by
  simp [b64ToBuf, hy, hz]

theorem b64_roundtrip : ∀ bs : List Nat, (∀ b ∈ bs, b < 256) →
    b64ToBuf (bufToB64 bs) = some bs
  | [], _ => rfl
  | [a], h => by
    have ha : a < 256 := h a (by simp)
    show b64ToBuf [b64EncChar (a / 4), b64EncChar (a % 4 * 16), '=', '='] = some [a]
    rw [b64ToBuf_pad2,
      b64DecChar_encChar (show a / 4 < 64 by omega),
      b64DecChar_encChar (show a % 4 * 16 < 64 by omega)]
    simp only [Option.bind_eq_bind, Option.some_bind, Option.pure_def,
      Option.some.injEq, List.cons.injEq, and_true]
    omega
  | [a, b], h => by
    have ha : a < 256 := h a (by simp)
    have hb : b < 256 := h b (by simp)
    have h3 : b % 16 * 4 < 64 := by omega
    show b64ToBuf [b64EncChar (a / 4), b64EncChar (a % 4 * 16 + b / 16),
      b64EncChar (b % 16 * 4), '='] = some [a, b]
    rw [b64ToBuf_pad1 _ _ _ (b64EncChar_ne_pad h3),
      b64DecChar_encChar (show a / 4 < 64 by omega),
      b64DecChar_encChar (show a % 4 * 16 + b / 16 < 64 by omega),
      b64DecChar_encChar h3]
    simp only [Option.bind_eq_bind, Option.some_bind, Option.pure_def,
      Option.some.injEq, List.cons.injEq, and_true]
    constructor <;> omega
  | a :: b :: c :: rest, h => by
    have ha : a < 256 := h a (by simp)
    have hb : b < 256 := h b (by simp)
    have hc : c < 256 := h c (by simp)
    have hrest : ∀ x ∈ rest, x < 256 := fun x hx => h x (by simp [hx])
    have ih := b64_roundtrip rest hrest
    have h3 : b % 16 * 4 + c / 64 < 64 := by omega
    have h4 : c % 64 < 64 := by omega
    show b64ToBuf (b64EncChar (a / 4) :: b64EncChar (a % 4 * 16 + b / 16) ::
      b64EncChar (b % 16 * 4 + c / 64) :: b64EncChar (c % 64) :: bufToB64 rest)
      = some (a :: b :: c :: rest)
    rw [b64ToBuf_full _ _ _ _ _ (b64EncChar_ne_pad h3) (b64EncChar_ne_pad h4),
      b64DecChar_encChar (show a / 4 < 64 by omega),
      b64DecChar_encChar (show a % 4 * 16 + b / 16 < 64 by omega),
      b64DecChar_encChar h3, b64DecChar_encChar h4, ih]
    simp only [Option.bind_eq_bind, Option.some_bind, Option.pure_def,
      Option.some.injEq, List.cons.injEq, and_true]
    refine ⟨by omega, by omega, by omega⟩

/-- The encoding character is always drawn from the alphabet. -/
theorem b64EncChar_mem (n : Nat) : b64EncChar n ∈ b64Alpha := by
  by_cases h : n < 64
  · exact b64EncChar_mem_alpha h
  · unfold b64EncChar
    rw [List.getD_eq_default]
    · decide
    · have : b64Alpha.length = 64 := by decide
      omega

/-- Every character of a base64 encoding is in the alphabet or is padding. -/
theorem bufToB64_chars : ∀ bs : List Nat, ∀ ch ∈ bufToB64 bs,
    ch ∈ b64Alpha ∨ ch = '='
  | [], ch, h => by simp [bufToB64] at h
  | [a], ch, h => by
    simp only [bufToB64, List.mem_cons, List.not_mem_nil, or_false] at h
    rcases h with h | h | h | h
    · exact Or.inl (h ▸ b64EncChar_mem _)
    · exact Or.inl (h ▸ b64EncChar_mem _)
    · exact Or.inr h
    · exact Or.inr h
  | [a, b], ch, h => by
    simp only [bufToB64, List.mem_cons, List.not_mem_nil, or_false] at h
    rcases h with h | h | h | h
    · exact Or.inl (h ▸ b64EncChar_mem _)
    · exact Or.inl (h ▸ b64EncChar_mem _)
    · exact Or.inl (h ▸ b64EncChar_mem _)
    · exact Or.inr h
  | a :: b :: c :: rest, ch, h => by
    have : bufToB64 (a :: b :: c :: rest) =
        b64EncChar (a / 4) :: b64EncChar (a % 4 * 16 + b / 16) ::
        b64EncChar (b % 16 * 4 + c / 64) :: b64EncChar (c % 64) ::
        bufToB64 rest := rfl
    rw [this] at h
    simp only [List.mem_cons] at h
    rcases h with h | h | h | h | h
    · exact Or.inl (h ▸ b64EncChar_mem _)
    · exact Or.inl (h ▸ b64EncChar_mem _)
    · exact Or.inl (h ▸ b64EncChar_mem _)
    · exact Or.inl (h ▸ b64EncChar_mem _)
    · exact bufToB64_chars rest ch h

/-- Base64 output never contains a dot (used by the nick codec, which
joins iv and ciphertext with a dot and splits on it). -/
theorem bufToB64_no_dot (bs : List Nat) : '.' ∉ bufToB64 bs := by
  intro hmem
  rcases bufToB64_chars bs '.' hmem with h | h
  · simp [b64Alpha] at h
  · exact absurd h (by decide)

/-! ## UTF-8, modelling `TextEncoder`/`TextDecoder` used by
`encode` and `decode` in crypto.js -/

/-- UTF-8 bytes of one Unicode scalar value. -/
def utf8EncodeChar (c : Char) : List Nat :=
  if c.toNat < 0x80 then [c.toNat]
  else if c.toNat < 0x800 then [0xC0 + c.toNat / 64, 0x80 + c.toNat % 64]
  else if c.toNat < 0x10000 then
    [0xE0 + c.toNat / 4096, 0x80 + c.toNat / 64 % 64, 0x80 + c.toNat % 64]
  else
    [0xF0 + c.toNat / 262144, 0x80 + c.toNat / 4096 % 64,
     0x80 + c.toNat / 64 % 64, 0x80 + c.toNat % 64]

/-- TextEncoder.encode: the UTF-8 bytes of a string. -/
def utf8Encode : JStr → List Nat
  | [] => []
  | c :: rest => utf8EncodeChar c ++ utf8Encode rest

/-- Parse one UTF-8 encoded scalar value from the head of a byte list,
returning the decoded character and the remaining bytes. -/
def utf8DecodeStep (b : Nat) (rest : List Nat) : Option (Char × List Nat) :=
  if b < 0x80 then some (Char.ofNat b, rest)
  else if b < 0xC2 then none
  else if b < 0xE0 then
    if 1 ≤ rest.length then
      if 0x80 ≤ rest.headD 0 ∧ rest.headD 0 < 0xC0 then
        some (Char.ofNat ((b - 0xC0) * 64 + (rest.headD 0 - 0x80)), rest.tail)
      else none
    else none
  else if b < 0xF0 then
    if 2 ≤ rest.length then
      if (0x80 ≤ rest.headD 0 ∧ rest.headD 0 < 0xC0) ∧
          (0x80 ≤ rest.tail.headD 0 ∧ rest.tail.headD 0 < 0xC0) then
        if 0x800 ≤ (b - 0xE0) * 4096 + (rest.headD 0 - 0x80) * 64 + (rest.tail.headD 0 - 0x80) ∧
            ((b - 0xE0) * 4096 + (rest.headD 0 - 0x80) * 64 + (rest.tail.headD 0 - 0x80) < 0xD800 ∨
             0xE000 ≤ (b - 0xE0) * 4096 + (rest.headD 0 - 0x80) * 64 + (rest.tail.headD 0 - 0x80)) then
          some (Char.ofNat ((b - 0xE0) * 4096 + (rest.headD 0 - 0x80) * 64 +
            (rest.tail.headD 0 - 0x80)), rest.tail.tail)
        else none
      else none
    else none
  else if b < 0xF5 then
    if 3 ≤ rest.length then
      if (0x80 ≤ rest.headD 0 ∧ rest.headD 0 < 0xC0) ∧
          (0x80 ≤ rest.tail.headD 0 ∧ rest.tail.headD 0 < 0xC0) ∧
          (0x80 ≤ rest.tail.tail.headD 0 ∧ rest.tail.tail.headD 0 < 0xC0) then
        if 0x10000 ≤ (b - 0xF0) * 262144 + (rest.headD 0 - 0x80) * 4096 +
            (rest.tail.headD 0 - 0x80) * 64 + (rest.tail.tail.headD 0 - 0x80) ∧
            (b - 0xF0) * 262144 + (rest.headD 0 - 0x80) * 4096 +
            (rest.tail.headD 0 - 0x80) * 64 + (rest.tail.tail.headD 0 - 0x80) < 0x110000 then
          some (Char.ofNat ((b - 0xF0) * 262144 + (rest.headD 0 - 0x80) * 4096 +
            (rest.tail.headD 0 - 0x80) * 64 + (rest.tail.tail.headD 0 - 0x80)), rest.tail.tail.tail)
        else none
      else none
    else none
  else none

theorem utf8DecodeStep_length (b : Nat) (rest : List Nat) (c : Char)
    (rest' : List Nat) (h : utf8DecodeStep b rest = some (c, rest')) :
    rest'.length ≤ rest.length := by
  unfold utf8DecodeStep at h
  repeat' split at h
  all_goals (try exact Option.noConfusion h)
  all_goals simp only [Option.some.injEq, Prod.mk.injEq] at h
  all_goals rw [← h.2]
  all_goals (try simp only [List.length_tail])
  all_goals omega

/-- UTF-8 decoding. The decrypt path only ever decodes authentic
plaintexts, which are valid UTF-8; malformed sequences (which
TextDecoder would replace with U+FFFD) are modelled as `none`. -/
def utf8Decode : List Nat → Option JStr
  | [] => some []
  | b :: rest =>
    match hstep : utf8DecodeStep b rest with
    | some (c, rest') => (utf8Decode rest').map (fun cs => c :: cs)
    | none => none
  termination_by l => l.length
  decreasing_by
    have := utf8DecodeStep_length b rest _ _ hstep
    simp only [List.length_cons]
    omega

theorem utf8Decode_nil : utf8Decode [] = some [] := by
  rw [utf8Decode]

theorem utf8Decode_cons_some (b : Nat) (rest : List Nat) (c : Char)
    (rest' : List Nat) (hstep : utf8DecodeStep b rest = some (c, rest')) :
    utf8Decode (b :: rest) = (utf8Decode rest').map (fun cs => c :: cs) := by
  rw [utf8Decode]
  split
  · rename_i c2 rest2 heq
    rw [hstep] at heq
    simp only [Option.some.injEq, Prod.mk.injEq] at heq
    rw [heq.1, heq.2]
  · rename_i heq
    rw [hstep] at heq
    simp at heq

theorem utf8Decode_cons_none (b : Nat) (rest : List Nat)
    (hstep : utf8DecodeStep b rest = none) :
    utf8Decode (b :: rest) = none := by
  rw [utf8Decode]
  split
  · rename_i c2 rest2 heq
    rw [hstep] at heq
    simp at heq
  · rfl

theorem utf8DecodeStep_one (b : Nat) (bs : List Nat) (h : b < 0x80) :
    utf8DecodeStep b bs = some (Char.ofNat b, bs) := by
  unfold utf8DecodeStep
  rw [if_pos h]

theorem utf8DecodeStep_two (b1 b2 : Nat) (bs : List Nat)
    (h1 : 0xC2 ≤ b1) (h2 : b1 < 0xE0) (h3 : 0x80 ≤ b2) (h4 : b2 < 0xC0) :
    utf8DecodeStep b1 (b2 :: bs) =
      some (Char.ofNat ((b1 - 0xC0) * 64 + (b2 - 0x80)), bs) := by
  unfold utf8DecodeStep
  simp only [List.headD_cons, List.tail_cons, List.length_cons]
  rw [if_neg (show ¬ (b1 < 0x80) by omega), if_neg (show ¬ (b1 < 0xC2) by omega),
    if_pos (show b1 < 0xE0 from h2), if_pos (show 1 ≤ bs.length + 1 by omega)]
  rw [if_pos (show 0x80 ≤ b2 ∧ b2 < 0xC0 from ⟨h3, h4⟩)]

theorem utf8DecodeStep_three (b1 b2 b3 : Nat) (bs : List Nat)
    (h1 : 0xE0 ≤ b1) (h2 : b1 < 0xF0) (h3 : 0x80 ≤ b2) (h4 : b2 < 0xC0)
    (h5 : 0x80 ≤ b3) (h6 : b3 < 0xC0)
    (hv : 0x800 ≤ (b1 - 0xE0) * 4096 + (b2 - 0x80) * 64 + (b3 - 0x80) ∧
      ((b1 - 0xE0) * 4096 + (b2 - 0x80) * 64 + (b3 - 0x80) < 0xD800 ∨
       0xE000 ≤ (b1 - 0xE0) * 4096 + (b2 - 0x80) * 64 + (b3 - 0x80))) :
    utf8DecodeStep b1 (b2 :: b3 :: bs) =
      some (Char.ofNat ((b1 - 0xE0) * 4096 + (b2 - 0x80) * 64 + (b3 - 0x80)), bs) := by
  unfold utf8DecodeStep
  simp only [List.headD_cons, List.tail_cons, List.length_cons]
  rw [if_neg (show ¬ (b1 < 0x80) by omega), if_neg (show ¬ (b1 < 0xC2) by omega),
    if_neg (show ¬ (b1 < 0xE0) by omega), if_pos (show b1 < 0xF0 from h2),
    if_pos (show 2 ≤ bs.length + 1 + 1 by omega)]
  rw [if_pos (show (0x80 ≤ b2 ∧ b2 < 0xC0) ∧ (0x80 ≤ b3 ∧ b3 < 0xC0)
    from ⟨⟨h3, h4⟩, ⟨h5, h6⟩⟩), if_pos hv]

theorem utf8DecodeStep_four (b1 b2 b3 b4 : Nat) (bs : List Nat)
    (h1 : 0xF0 ≤ b1) (h2 : b1 < 0xF5) (h3 : 0x80 ≤ b2) (h4 : b2 < 0xC0)
    (h5 : 0x80 ≤ b3) (h6 : b3 < 0xC0) (h7 : 0x80 ≤ b4) (h8 : b4 < 0xC0)
    (hv : 0x10000 ≤ (b1 - 0xF0) * 262144 + (b2 - 0x80) * 4096 +
        (b3 - 0x80) * 64 + (b4 - 0x80) ∧
      (b1 - 0xF0) * 262144 + (b2 - 0x80) * 4096 +
        (b3 - 0x80) * 64 + (b4 - 0x80) < 0x110000) :
    utf8DecodeStep b1 (b2 :: b3 :: b4 :: bs) =
      some (Char.ofNat ((b1 - 0xF0) * 262144 + (b2 - 0x80) * 4096 +
        (b3 - 0x80) * 64 + (b4 - 0x80)), bs) := by
  unfold utf8DecodeStep
  simp only [List.headD_cons, List.tail_cons, List.length_cons]
  rw [if_neg (show ¬ (b1 < 0x80) by omega), if_neg (show ¬ (b1 < 0xC2) by omega),
    if_neg (show ¬ (b1 < 0xE0) by omega), if_neg (show ¬ (b1 < 0xF0) by omega),
    if_pos (show b1 < 0xF5 from h2),
    if_pos (show 3 ≤ bs.length + 1 + 1 + 1 by omega)]
  rw [if_pos (show (0x80 ≤ b2 ∧ b2 < 0xC0) ∧ (0x80 ≤ b3 ∧ b3 < 0xC0) ∧
    (0x80 ≤ b4 ∧ b4 < 0xC0) from ⟨⟨h3, h4⟩, ⟨h5, h6⟩, ⟨h7, h8⟩⟩), if_pos hv]

/-- Decoding one encoded character consumes exactly its bytes. -/
theorem utf8DecodeStep_encodeChar (c : Char) (bs : List Nat) :
    ∃ b rest, utf8EncodeChar c ++ bs = b :: rest ∧
      utf8DecodeStep b rest = some (c, bs) := by
  have hval : c.toNat < 0xD800 ∨ (0xDFFF < c.toNat ∧ c.toNat < 0x110000) := c.valid
  by_cases h1 : c.toNat < 0x80
  · refine ⟨c.toNat, bs, ?_, ?_⟩
    · rw [utf8EncodeChar, if_pos h1]
      rfl
    · rw [utf8DecodeStep_one _ _ h1, Char.ofNat_toNat]
  · by_cases h2 : c.toNat < 0x800
    · refine ⟨0xC0 + c.toNat / 64, (0x80 + c.toNat % 64) :: bs, ?_, ?_⟩
      · rw [utf8EncodeChar, if_neg h1, if_pos h2]
        rfl
      · rw [utf8DecodeStep_two _ _ _ (by omega) (by omega) (by omega) (by omega)]
        rw [show (0xC0 + c.toNat / 64 - 0xC0) * 64 + (0x80 + c.toNat % 64 - 0x80)
          = c.toNat by omega, Char.ofNat_toNat]
    · by_cases h3 : c.toNat < 0x10000
      · refine ⟨0xE0 + c.toNat / 4096,
          (0x80 + c.toNat / 64 % 64) :: (0x80 + c.toNat % 64) :: bs, ?_, ?_⟩
        · rw [utf8EncodeChar, if_neg h1, if_neg h2, if_pos h3]
          rfl
        · rw [utf8DecodeStep_three _ _ _ _ (by omega) (by omega) (by omega)
            (by omega) (by omega) (by omega) (by constructor <;> omega)]
          rw [show (0xE0 + c.toNat / 4096 - 0xE0) * 4096 +
            (0x80 + c.toNat / 64 % 64 - 0x80) * 64 + (0x80 + c.toNat % 64 - 0x80)
            = c.toNat by omega, Char.ofNat_toNat]
      · refine ⟨0xF0 + c.toNat / 262144, (0x80 + c.toNat / 4096 % 64) ::
          (0x80 + c.toNat / 64 % 64) :: (0x80 + c.toNat % 64) :: bs, ?_, ?_⟩
        · rw [utf8EncodeChar, if_neg h1, if_neg h2, if_neg h3]
          rfl
        · rw [utf8DecodeStep_four _ _ _ _ _ (by omega) (by omega) (by omega)
            (by omega) (by omega) (by omega) (by omega) (by omega)
            (by constructor <;> omega)]
          rw [show (0xF0 + c.toNat / 262144 - 0xF0) * 262144 +
            (0x80 + c.toNat / 4096 % 64 - 0x80) * 4096 +
            (0x80 + c.toNat / 64 % 64 - 0x80) * 64 + (0x80 + c.toNat % 64 - 0x80)
            = c.toNat by omega, Char.ofNat_toNat]

theorem utf8Decode_encodeChar_append (c : Char) (bs : List Nat) :
    utf8Decode (utf8EncodeChar c ++ bs) = (utf8Decode bs).map (fun cs => c :: cs) := by
  obtain ⟨b, rest, heq, hstep⟩ := utf8DecodeStep_encodeChar c bs
  rw [heq, utf8Decode_cons_some b rest c bs hstep]
/-- UTF-8 round trip: decoding an encoded string restores it. -/
theorem utf8_roundtrip (s : JStr) : utf8Decode (utf8Encode s) = some s := by
  induction s with
  | nil => exact utf8Decode_nil
  | cons c rest ih =>
    show utf8Decode (utf8EncodeChar c ++ utf8Encode rest) = some (c :: rest)
    rw [utf8Decode_encodeChar_append, ih]
    rfl

/-- Every UTF-8 byte is below 256. -/
theorem utf8EncodeChar_lt_256 (c : Char) : ∀ b ∈ utf8EncodeChar c, b < 256 := by
  have hval : c.toNat < 0xD800 ∨ (0xDFFF < c.toNat ∧ c.toNat < 0x110000) := c.valid
  intro b hb
  by_cases h1 : c.toNat < 0x80
  · rw [utf8EncodeChar, if_pos h1] at hb
    simp at hb
    omega
  · by_cases h2 : c.toNat < 0x800
    · rw [utf8EncodeChar, if_neg h1, if_pos h2] at hb
      simp at hb
      rcases hb with h | h <;> omega
    · by_cases h3 : c.toNat < 0x10000
      · rw [utf8EncodeChar, if_neg h1, if_neg h2, if_pos h3] at hb
        simp at hb
        rcases hb with h | h | h <;> omega
      · rw [utf8EncodeChar, if_neg h1, if_neg h2, if_neg h3] at hb
        simp at hb
        rcases hb with h | h | h | h <;> omega

/-- Every byte of an encoded string is below 256. -/
theorem utf8Encode_lt_256 (s : JStr) : ∀ b ∈ utf8Encode s, b < 256 := by
  induction s with
  | nil => intro b hb; simp [utf8Encode] at hb
  | cons c rest ih =>
    intro b hb
    rcases List.mem_append.mp hb with h | h
    · exact utf8EncodeChar_lt_256 c b h
    · exact ih b h

/-! ## Client crypto layer (crypto.js)

AES-GCM and PBKDF2 are Web Crypto platform primitives, not repository
code; they are modelled as an abstract backend. `enc k iv pt` is the
deterministic ciphertext (ciphertext concatenated with the GCM tag)
produced for key `k`, nonce `iv` and plaintext `pt`; `dec` returns
`none` when authentication fails. The repository functions below are
translated from crypto.js on top of this backend. -/

structure CryptoBackend (K : Type) where
  kdf : JStr → List Nat → Nat → K
  enc : K → List Nat → List Nat → List Nat
  dec : K → List Nat → List Nat → Option (List Nat)

/-- PBKDF2_ITERATIONS (crypto.js line 14). -/
def pbkdf2Iterations : Nat := 100000

/-- PBKDF2_SALT (crypto.js line 15): TextEncoder bytes of the fixed
string chatapp-v1. -/
def pbkdf2Salt : List Nat := utf8Encode [ 'c', 'h', 'a', 't', 'a', 'p', 'p', '-', 'v', '1' ]

/-- deriveKey (crypto.js): PBKDF2 over the trimmed seed phrase with the
fixed salt and iteration count, yielding an AES-GCM key. -/
def deriveKey {K : Type} (B : CryptoBackend K) (seedPhrase : JStr) : K :=
  B.kdf (jsTrim seedPhrase) pbkdf2Salt pbkdf2Iterations

/-- Result shape of encryptMessage: `{iv, data}`, both base64. -/
structure EncryptedMsg where
  iv : JStr
  data : JStr
deriving DecidableEq

/-- encryptMessage (crypto.js): AES-GCM encrypt the UTF-8 bytes of the
plaintext under a per-call nonce (passed here explicitly, drawn randomly
by the caller), then base64 both nonce and ciphertext. -/
def encryptMessage {K : Type} (B : CryptoBackend K) (key : K) (iv : List Nat)
    (plaintext : JStr) : EncryptedMsg :=
  { iv := bufToB64 iv, data := bufToB64 (B.enc key iv (utf8Encode plaintext)) }

/-- decryptMessage (crypto.js): base64-decode nonce and ciphertext,
AES-GCM decrypt, UTF-8 decode; any failure throws, modelled as `none`. -/
def decryptMessage {K : Type} (B : CryptoBackend K) (key : K)
    (ivB64 dataB64 : JStr) : Option JStr :=
  match b64ToBuf ivB64, b64ToBuf dataB64 with
  | some iv, some ct =>
    match B.dec key iv ct with
    | some pt => utf8Decode pt
    | none => none
  | _, _ => none

/-- encryptNick (crypto.js): like encryptMessage but returns the single
string `ivB64 ++ "." ++ dataB64`. -/
def encryptNick {K : Type} (B : CryptoBackend K) (key : K) (iv : List Nat)
    (nickname : JStr) : JStr :=
  bufToB64 iv ++ '.' :: bufToB64 (B.enc key iv (utf8Encode nickname))

/-- decryptNick (crypto.js): split on the dot and decrypt. When the
split yields fewer than two parts, JS passes `undefined` to `atob`,
which throws; modelled as `none`. -/
def decryptNick {K : Type} (B : CryptoBackend K) (key : K)
    (encryptedNick : JStr) : Option JStr :=
  match splitOnChar '.' encryptedNick with
  | ivB64 :: dataB64 :: _ => decryptMessage B key ivB64 dataB64
  | _ => none

/-- Wire shape of a message envelope: `{iv, data, nick, ts}`. -/
structure MsgObj where
  iv : JStr
  data : JStr
  nick : JStr
  ts : Int
deriving DecidableEq

/-- Result of decryptMessageObject. -/
structure DecodedMsg where
  text : JStr
  nick : JStr
  ts : Int
deriving DecidableEq

/-- decryptMessageObject (crypto.js): decrypt text and nick; the
surrounding try/catch maps any failure of either to `null`. -/
def decryptMessageObject {K : Type} (B : CryptoBackend K) (key : K)
    (msgObj : MsgObj) : Option DecodedMsg :=
  match decryptMessage B key msgObj.iv msgObj.data,
      decryptNick B key msgObj.nick with
  | some text, some nick => some ⟨text, nick, msgObj.ts⟩
  | _, _ => none

/-- Result shape of encryptImageBuffer: `{iv, data, mime}`. -/
structure EncryptedImg where
  iv : JStr
  data : JStr
  mime : JStr
deriving DecidableEq

/-- encryptImageBuffer (crypto.js): AES-GCM encrypt a raw byte buffer,
base64 the nonce and ciphertext, and carry the mime type along. -/
def encryptImageBuffer {K : Type} (B : CryptoBackend K) (key : K)
    (iv : List Nat) (arrayBuffer : List Nat) (mimeType : JStr) : EncryptedImg :=
  { iv := bufToB64 iv, data := bufToB64 (B.enc key iv arrayBuffer), mime := mimeType }

/-- decryptImageToDataUrl (crypto.js): decrypt and render the plaintext
bytes as a base64 data URL with the given mime type. -/
def decryptImageToDataUrl {K : Type} (B : CryptoBackend K) (key : K)
    (ivB64 dataB64 mimeType : JStr) : Option JStr :=
  match b64ToBuf ivB64, b64ToBuf dataB64 with
  | some iv, some ct =>
    (B.dec key iv ct).map
      (fun plainBuf => String.data "data:" ++ mimeType ++
        String.data ";base64," ++ bufToB64 plainBuf)
  | _, _ => none

/-! ## Round-trip and failure-propagation lemmas for the codec -/

theorem decryptMessage_b64 {K : Type} (B : CryptoBackend K) (key : K)
    (iv ct : List Nat) (ptBytes : List Nat) (pt : JStr)
    (hiv : ∀ b ∈ iv, b < 256) (hct : ∀ b ∈ ct, b < 256)
    (hdec : B.dec key iv ct = some ptBytes)
    (hpt : utf8Decode ptBytes = some pt) :
    decryptMessage B key (bufToB64 iv) (bufToB64 ct) = some pt := by
  unfold decryptMessage
  rw [b64_roundtrip iv hiv, b64_roundtrip ct hct]
  simp only [hdec, hpt]

theorem decryptMessage_encryptMessage {K : Type} (B : CryptoBackend K) (key : K)
    (iv : List Nat) (pt : JStr)
    (hiv : ∀ b ∈ iv, b < 256)
    (hct : ∀ b ∈ B.enc key iv (utf8Encode pt), b < 256)
    (hdec : B.dec key iv (B.enc key iv (utf8Encode pt)) = some (utf8Encode pt)) :
    decryptMessage B key (encryptMessage B key iv pt).iv
      (encryptMessage B key iv pt).data = some pt :=
  decryptMessage_b64 B key iv _ _ pt hiv hct hdec (utf8_roundtrip pt)

theorem decryptNick_encryptNick {K : Type} (B : CryptoBackend K) (key : K)
    (iv : List Nat) (nickname : JStr)
    (hiv : ∀ b ∈ iv, b < 256)
    (hct : ∀ b ∈ B.enc key iv (utf8Encode nickname), b < 256)
    (hdec : B.dec key iv (B.enc key iv (utf8Encode nickname)) = some (utf8Encode nickname)) :
    decryptNick B key (encryptNick B key iv nickname) = some nickname := by
  unfold encryptNick decryptNick
  rw [splitOnChar_append '.' _ _ (bufToB64_no_dot iv),
    splitOnChar_no_sep '.' _ (bufToB64_no_dot _)]
  exact decryptMessage_b64 B key iv _ _ nickname hiv hct hdec (utf8_roundtrip nickname)

/-- Identity backend used to witness the abstract AEAD contract. -/
def idEncBackend : CryptoBackend JStr :=
  { kdf := fun s _ _ => s, enc := fun _ _ pt => pt, dec := fun _ _ ct => some ct }

/-- Always-failing backend, modelling AES-GCM rejecting tampered input. -/
def noneDecBackend : CryptoBackend JStr :=
  { kdf := fun s _ _ => s, enc := fun _ _ pt => pt, dec := fun _ _ _ => none }

/-- C1: for every plaintext x (chat text, display name, or binary
buffer, including the empty input) and every key produced by deriveKey,
decrypting the `{iv, ciphertext}` pair produced by encrypting x under
that key returns exactly x, for encryptMessage/decryptMessage,
encryptNick/decryptNick, and the buffer variant
(encryptImageBuffer/decryptImageToDataUrl, whose data URL carries the
base64 of exactly the original buffer). The AEAD round-trip contract of
the Web Crypto backend is supplied as hypotheses at the used points. -/
theorem c1_encrypt_decrypt_roundtrip {K : Type} (B : CryptoBackend K) (seed : JStr)
    (ivm ivn ivb : List Nat) (plaintext nickname : JStr) (buf : List Nat) (mime : JStr)
    (hivm : ∀ b ∈ ivm, b < 256)
    (hctm : ∀ b ∈ B.enc (deriveKey B seed) ivm (utf8Encode plaintext), b < 256)
    (hdecm : B.dec (deriveKey B seed) ivm
      (B.enc (deriveKey B seed) ivm (utf8Encode plaintext)) = some (utf8Encode plaintext))
    (hivn : ∀ b ∈ ivn, b < 256)
    (hctn : ∀ b ∈ B.enc (deriveKey B seed) ivn (utf8Encode nickname), b < 256)
    (hdecn : B.dec (deriveKey B seed) ivn
      (B.enc (deriveKey B seed) ivn (utf8Encode nickname)) = some (utf8Encode nickname))
    (hbuf : ∀ b ∈ buf, b < 256)
    (hivb : ∀ b ∈ ivb, b < 256)
    (hctb : ∀ b ∈ B.enc (deriveKey B seed) ivb buf, b < 256)
    (hdecb : B.dec (deriveKey B seed) ivb
      (B.enc (deriveKey B seed) ivb buf) = some buf) :
    decryptMessage B (deriveKey B seed)
        (encryptMessage B (deriveKey B seed) ivm plaintext).iv
        (encryptMessage B (deriveKey B seed) ivm plaintext).data = some plaintext
    ∧ decryptNick B (deriveKey B seed)
        (encryptNick B (deriveKey B seed) ivn nickname) = some nickname
    ∧ decryptImageToDataUrl B (deriveKey B seed)
        (encryptImageBuffer B (deriveKey B seed) ivb buf mime).iv
        (encryptImageBuffer B (deriveKey B seed) ivb buf mime).data mime
      = some (String.data "data:" ++ mime ++ String.data ";base64," ++ bufToB64 buf)
    ∧ b64ToBuf (bufToB64 buf) = some buf := by
  refine ⟨decryptMessage_encryptMessage B _ ivm plaintext hivm hctm hdecm,
    decryptNick_encryptNick B _ ivn nickname hivn hctn hdecn, ?_, b64_roundtrip buf hbuf⟩
  unfold encryptImageBuffer decryptImageToDataUrl
  rw [b64_roundtrip ivb hivb, b64_roundtrip _ hctb]
  simp only [hdecb]
  rfl

/-- Witness for C1 at concrete inputs, with the identity backend
satisfying the AEAD contract hypotheses. -/
theorem c1_encrypt_decrypt_roundtrip_witness :
    decryptMessage idEncBackend (deriveKey idEncBackend (String.data "pass"))
        (encryptMessage idEncBackend (deriveKey idEncBackend (String.data "pass"))
          [0, 1, 2, 3, 4, 5, 6, 7, 8, 9, 10, 11] (String.data "hello")).iv
        (encryptMessage idEncBackend (deriveKey idEncBackend (String.data "pass"))
          [0, 1, 2, 3, 4, 5, 6, 7, 8, 9, 10, 11] (String.data "hello")).data
      = some (String.data "hello") :=
  (c1_encrypt_decrypt_roundtrip idEncBackend (String.data "pass")
    [0, 1, 2, 3, 4, 5, 6, 7, 8, 9, 10, 11] [12, 13, 14, 15, 16, 17, 18, 19, 20, 21, 22, 23]
    [1, 2, 3, 4, 5, 6, 7, 8, 9, 10, 11, 12]
    (String.data "hello") (String.data "bob") [0, 255, 128] (String.data "image/png")
    (by decide) (by decide) (by decide) (by decide) (by decide) (by decide)
    (by decide) (by decide) (by decide) (by decide)).1

/-- C2: whenever the AEAD decrypt rejects the (possibly tampered)
nonce/ciphertext pair of an envelope — mismatched key, flipped bit in iv
or ciphertext — decryptMessageObject returns null, and whenever it does
return a value, that value comes from a successful authenticated
decryption of both the text and the nick with the envelope timestamp
passed through: a failure is never surfaced as wrong plaintext. -/
theorem c2_decrypt_failure_maps_to_null {K : Type} (B : CryptoBackend K) (key : K)
    (m : MsgObj)
    (hfail : ∀ iv ct, b64ToBuf m.iv = some iv → b64ToBuf m.data = some ct →
      B.dec key iv ct = none) :
    decryptMessageObject B key m = none
    ∧ ∀ m' : MsgObj, ∀ r : DecodedMsg, decryptMessageObject B key m' = some r →
        decryptMessage B key m'.iv m'.data = some r.text
        ∧ decryptNick B key m'.nick = some r.nick
        ∧ r.ts = m'.ts := by
  constructor
  · have hmsg : decryptMessage B key m.iv m.data = none := by
      unfold decryptMessage
      rcases hiv : b64ToBuf m.iv with _ | iv
      · rfl
      · rcases hdata : b64ToBuf m.data with _ | ct
        · rfl
        · simp only [hfail iv ct hiv hdata]
    unfold decryptMessageObject
    rw [hmsg]
  · intro m' r hr
    unfold decryptMessageObject at hr
    rcases htext : decryptMessage B key m'.iv m'.data with _ | text
    · rw [htext] at hr
      exact absurd hr (by simp)
    · rcases hnick : decryptNick B key m'.nick with _ | nick
      · rw [htext, hnick] at hr
        exact absurd hr (by simp)
      · rw [htext, hnick] at hr
        simp only [Option.some.injEq] at hr
        rw [← hr]
        exact ⟨rfl, rfl, rfl⟩

/-- Witness for C2: a backend that rejects everything (as AES-GCM does
on tampered data) makes decryptMessageObject return null on a
well-formed envelope. -/
theorem c2_decrypt_failure_maps_to_null_witness :
    decryptMessageObject noneDecBackend (String.data "key")
      { iv := String.data "AAAA", data := String.data "AAAA",
        nick := String.data "AAAA.AAAA", ts := 7 } = none :=
  (c2_decrypt_failure_maps_to_null noneDecBackend (String.data "key")
    { iv := String.data "AAAA", data := String.data "AAAA",
      nick := String.data "AAAA.AAAA", ts := 7 }
    (fun _ _ _ _ => rfl)).1

/-! ## SHA-256, modelling `crypto.subtle.digest` used by deriveRoomId.
Standard FIPS 180-4 SHA-256 over byte lists, executable. -/

/-- Right rotation of a 32-bit word. -/
def rotr32 (n x : Nat) : Nat := (x / 2 ^ n + x % 2 ^ n * 2 ^ (32 - n)) % 2 ^ 32

def shaCh (x y z : Nat) : Nat := (x &&& y) ^^^ ((x ^^^ 0xFFFFFFFF) &&& z)

def shaMaj (x y z : Nat) : Nat := (x &&& y) ^^^ (x &&& z) ^^^ (y &&& z)

def shaBigSigma0 (x : Nat) : Nat := rotr32 2 x ^^^ rotr32 13 x ^^^ rotr32 22 x

def shaBigSigma1 (x : Nat) : Nat := rotr32 6 x ^^^ rotr32 11 x ^^^ rotr32 25 x

def shaSmallSigma0 (x : Nat) : Nat := rotr32 7 x ^^^ rotr32 18 x ^^^ (x / 2 ^ 3)

def shaSmallSigma1 (x : Nat) : Nat := rotr32 17 x ^^^ rotr32 19 x ^^^ (x / 2 ^ 10)

/-- The 64 SHA-256 round constants. -/
def shaK : List Nat :=
  [
    1116352408, 1899447441, 3049323471, 3921009573,
    961987163, 1508970993, 2453635748, 2870763221,
    3624381080, 310598401, 607225278, 1426881987,
    1925078388, 2162078206, 2614888103, 3248222580,
    3835390401, 4022224774, 264347078, 604807628,
    770255983, 1249150122, 1555081692, 1996064986,
    2554220882, 2821834349, 2952996808, 3210313671,
    3336571891, 3584528711, 113926993, 338241895,
    666307205, 773529912, 1294757372, 1396182291,
    1695183700, 1986661051, 2177026350, 2456956037,
    2730485921, 2820302411, 3259730800, 3345764771,
    3516065817, 3600352804, 4094571909, 275423344,
    430227734, 506948616, 659060556, 883997877,
    958139571, 1322822218, 1537002063, 1747873779,
    1955562222, 2024104815, 2227730452, 2361852424,
    2428436474, 2756734187, 3204031479, 3329325298 ]

/-- The eight 32-bit words of the running hash. -/
structure HashState where
  h0 : Nat
  h1 : Nat
  h2 : Nat
  h3 : Nat
  h4 : Nat
  h5 : Nat
  h6 : Nat
  h7 : Nat
deriving DecidableEq

/-- SHA-256 initial hash value. -/
def shaInit : HashState :=
  ⟨1779033703, 3144134277, 1013904242, 2773480762,
   1359893119, 2600822924, 528734635, 1541459225⟩

/-- Working variables a-h of the compression loop. -/
structure ShaWork where
  a : Nat
  b : Nat
  c : Nat
  d : Nat
  e : Nat
  f : Nat
  g : Nat
  h : Nat

/-- Extend 16 message-schedule words to 64. -/
def shaSchedule (block : List Nat) : List Nat :=
  (List.range 48).foldl
    (fun ws _ => ws ++
      [(shaSmallSigma1 (ws.getD (ws.length - 2) 0) + ws.getD (ws.length - 7) 0 +
        shaSmallSigma0 (ws.getD (ws.length - 15) 0) + ws.getD (ws.length - 16) 0) % 2 ^ 32])
    block

/-- One compression round with schedule word and round constant. -/
def shaRound (v : ShaWork) (wk : Nat × Nat) : ShaWork :=
  let t1 := (v.h + shaBigSigma1 v.e + shaCh v.e v.f v.g + wk.2 + wk.1) % 2 ^ 32
  let t2 := (shaBigSigma0 v.a + shaMaj v.a v.b v.c) % 2 ^ 32
  ⟨(t1 + t2) % 2 ^ 32, v.a, v.b, v.c, (v.d + t1) % 2 ^ 32, v.e, v.f, v.g⟩

/-- Compress one 16-word block into the hash state. -/
def shaCompress (st : HashState) (block : List Nat) : HashState :=
  let w := shaSchedule block
  let fin := (List.zip w shaK).foldl shaRound
    ⟨st.h0, st.h1, st.h2, st.h3, st.h4, st.h5, st.h6, st.h7⟩
  ⟨(st.h0 + fin.a) % 2 ^ 32, (st.h1 + fin.b) % 2 ^ 32, (st.h2 + fin.c) % 2 ^ 32,
   (st.h3 + fin.d) % 2 ^ 32, (st.h4 + fin.e) % 2 ^ 32, (st.h5 + fin.f) % 2 ^ 32,
   (st.h6 + fin.g) % 2 ^ 32, (st.h7 + fin.h) % 2 ^ 32⟩

/-- Big-endian 8-byte encoding of the bit length. -/
def be64 (n : Nat) : List Nat :=
  [n / 2 ^ 56 % 256, n / 2 ^ 48 % 256, n / 2 ^ 40 % 256, n / 2 ^ 32 % 256,
   n / 2 ^ 24 % 256, n / 2 ^ 16 % 256, n / 2 ^ 8 % 256, n % 256]

/-- Big-endian 4-byte encoding of a 32-bit word. -/
def be32 (w : Nat) : List Nat :=
  [w / 2 ^ 24 % 256, w / 2 ^ 16 % 256, w / 2 ^ 8 % 256, w % 256]

/-- SHA-256 padding: 0x80, zeros to 56 mod 64, 8-byte bit length. -/
def shaPad (msg : List Nat) : List Nat :=
  msg ++ 0x80 :: (List.replicate ((64 - (msg.length + 9) % 64) % 64) 0 ++ be64 (8 * msg.length))

/-- Split the padded message into 64-byte blocks. -/
def toBlocks : List Nat → List (List Nat)
  | [] => []
  | x :: rest => (x :: rest).take 64 :: toBlocks ((x :: rest).drop 64)
  termination_by l => l.length
  decreasing_by
    simp only [List.length_drop, List.length_cons]
    omega

/-- Pack bytes into big-endian 32-bit words. -/
def shaWords : List Nat → List Nat
  | b1 :: b2 :: b3 :: b4 :: rest =>
    (b1 * 2 ^ 24 + b2 * 2 ^ 16 + b3 * 2 ^ 8 + b4) :: shaWords rest
  | _ => []

/-- Serialize the final state to 32 digest bytes. -/
def shaDigestBytes (st : HashState) : List Nat :=
  be32 st.h0 ++ be32 st.h1 ++ be32 st.h2 ++ be32 st.h3 ++
  be32 st.h4 ++ be32 st.h5 ++ be32 st.h6 ++ be32 st.h7

/-- SHA-256 digest of a byte list. -/
def sha256 (msg : List Nat) : List Nat :=
  shaDigestBytes
    ((toBlocks (shaPad msg)).foldl (fun st block => shaCompress st (shaWords block)) shaInit)

/-- The sixteen lowercase hex digits. -/
def hexDigits : List Char := String.data "0123456789abcdef"

/-- Hex character of a 4-bit value (crypto.js renders bytes with
`b.toString(16).padStart(2, '0')`). -/
def hexChar (n : Nat) : Char := hexDigits.getD n '0'

/-- Two lowercase hex digits of one byte. -/
def byteToHex (b : Nat) : JStr := [hexChar (b / 16), hexChar (b % 16)]

/-- Hex string of a byte list, as the `Array.from(...).map(...).join('')`
in deriveRoomId. -/
def bytesToHex : List Nat → JStr
  | [] => []
  | b :: rest => byteToHex b ++ bytesToHex rest

/-- deriveRoomId (crypto.js): lowercase hex of the SHA-256 digest of the
UTF-8 bytes of the trimmed seed phrase. -/
def deriveRoomId (seedPhrase : JStr) : JStr :=
  bytesToHex (sha256 (utf8Encode (jsTrim seedPhrase)))

theorem shaDigestBytes_length (st : HashState) : (shaDigestBytes st).length = 32 := by
  simp [shaDigestBytes, be32]

theorem be32_lt_256 (w : Nat) : ∀ b ∈ be32 w, b < 256 := by
  intro b hb
  simp only [be32, List.mem_cons, List.not_mem_nil, or_false] at hb
  rcases hb with h | h | h | h <;> omega

theorem shaDigestBytes_lt_256 (st : HashState) : ∀ b ∈ shaDigestBytes st, b < 256 := by
  intro b hb
  simp only [shaDigestBytes, List.mem_append] at hb
  rcases hb with ((((((h | h) | h) | h) | h) | h) | h) | h <;> exact be32_lt_256 _ b h

theorem hexChar_mem (n : Nat) : hexChar n ∈ hexDigits := by
  by_cases h : n < 16
  · interval_cases n <;> decide
  · unfold hexChar
    rw [List.getD_eq_default]
    · decide
    · have : hexDigits.length = 16 := by decide
      omega

theorem bytesToHex_length (bs : List Nat) : (bytesToHex bs).length = 2 * bs.length := by
  induction bs with
  | nil => rfl
  | cons b rest ih =>
    simp [bytesToHex, byteToHex, ih]
    omega

theorem bytesToHex_chars (bs : List Nat) : ∀ ch ∈ bytesToHex bs, ch ∈ hexDigits := by
  induction bs with
  | nil => intro ch h; simp [bytesToHex] at h
  | cons b rest ih =>
    intro ch h
    simp only [bytesToHex, byteToHex, List.cons_append, List.nil_append,
      List.mem_cons] at h
    rcases h with h | h | h
    · exact h ▸ hexChar_mem _
    · exact h ▸ hexChar_mem _
    · exact ih ch h

/-- C3: deriveRoomId is a pure function of the trimmed passphrase: it
always returns a 64-character lowercase hexadecimal string, and any two
passphrases equal after trimming yield the same RoomId (repeated calls
are identical because the embedding of deriveRoomId is a function of
its input alone). -/
theorem c3_deriveRoomId_spec (p : JStr) :
    (deriveRoomId p).length = 64
    ∧ (∀ ch ∈ deriveRoomId p, ch ∈ hexDigits)
    ∧ ∀ q : JStr, jsTrim q = jsTrim p → deriveRoomId q = deriveRoomId p := by
  refine ⟨?_, bytesToHex_chars _, ?_⟩
  · rw [deriveRoomId, sha256, bytesToHex_length, shaDigestBytes_length]
  · intro q hq
    unfold deriveRoomId
    rw [hq]

/-- Witness for C3 at the concrete passphrase from the spec scenario,
with a second passphrase differing only in surrounding whitespace. -/
theorem c3_deriveRoomId_spec_witness :
    (deriveRoomId (String.data "correct horse battery staple")).length = 64
    ∧ deriveRoomId (String.data "  correct horse battery staple ")
      = deriveRoomId (String.data "correct horse battery staple") :=
  ⟨(c3_deriveRoomId_spec (String.data "correct horse battery staple")).1,
   (c3_deriveRoomId_spec (String.data "correct horse battery staple")).2.2
     (String.data "  correct horse battery staple ") (by decide)⟩

/-! ## Server room-session protocol (server index.js, the variant with
nick-deduplicated presence). In-memory maps are modelled as association
lists; socket ids as naturals; handler outputs as an event list. Disk
persistence of the room log is part of the state (`chatLog`); the
fire-and-forget likes/pins snapshot saves are not modelled. -/

def alGet {α β : Type} [DecidableEq α] : List (α × β) → α → Option β
  | [], _ => none
  | (k, v) :: rest, key => if k = key then some v else alGet rest key

def alSet {α β : Type} [DecidableEq α] : List (α × β) → α → β → List (α × β)
  | [], key, v => [(key, v)]
  | (k, w) :: rest, key, v =>
    if k = key then (k, v) :: rest else (k, w) :: alSet rest key v

def alRemove {α β : Type} [DecidableEq α] : List (α × β) → α → List (α × β)
  | [], _ => []
  | (k, w) :: rest, key =>
    if k = key then alRemove rest key else (k, w) :: alRemove rest key

theorem alGet_alSet_same {α β : Type} [DecidableEq α]
    (m : List (α × β)) (k : α) (v : β) : alGet (alSet m k v) k = some v := by
  induction m with
  | nil => simp [alGet, alSet]
  | cons p rest ih =>
    obtain ⟨k0, v0⟩ := p
    by_cases h : k0 = k <;> simp [alGet, alSet, h, ih]

theorem alGet_alSet_other {α β : Type} [DecidableEq α]
    (m : List (α × β)) (k k' : α) (v : β) (h : k ≠ k') :
    alGet (alSet m k v) k' = alGet m k' := by
  induction m with
  | nil => simp [alGet, alSet, h]
  | cons p rest ih =>
    obtain ⟨k0, v0⟩ := p
    by_cases h0 : k0 = k
    · subst h0
      simp [alGet, alSet, h]
    · simp [alGet, alSet, h0, ih]

/-- isValidRoomId (server): 64 lowercase hex characters. -/
def isValidRoomId (s : JStr) : Bool :=
  s.length = 64 && s.all (fun c => hexDigits.contains c)

/-- isValidNick (server): trimmed length between 1 and 32. -/
def isValidNick (s : JStr) : Bool :=
  1 ≤ (jsTrim s).length && (jsTrim s).length ≤ 32

/-- isValidFileId (server): 32 lowercase hex characters. -/
def isValidFileId (s : JStr) : Bool :=
  s.length = 32 && s.all (fun c => hexDigits.contains c)

/-- A pinned-message record `{ts, pinnedAt}`. -/
structure Pin where
  ts : Int
  pinnedAt : Int
deriving DecidableEq

/-- One line of a room's append-only log, structurally. -/
inductive LogEntry where
  | message (iv data nick : JStr) (ts : Int)
  | system (subtype : JStr) (nick : JStr) (ts : Int)
deriving DecidableEq

/-- Events emitted by the realtime handlers. -/
inductive SEvent where
  | errorMsg (msg : JStr)
  | onlineCount (roomId : JStr) (count : Nat)
  | userJoined (roomId : JStr) (nick : JStr)
  | userLeft (roomId : JStr) (nick : JStr)
  | logAppend (roomId : JStr) (entry : LogEntry)
  | messageEvt (roomId : JStr) (iv data nick : JStr) (ts : Int)
  | typingEvt (roomId : JStr) (nick : JStr)
  | stopTypingEvt (roomId : JStr) (nick : JStr)
  | readBy (roomId : JStr) (nick : JStr) (upToTs : Int)
  | likedEvt (roomId : JStr) (msgTs : Int) (nicks : List JStr)
  | pinsUpdated (roomId : JStr) (pins : List Pin)
  | likesSnapshot (roomId : JStr) (likes : List (Int × List JStr))
deriving DecidableEq

/-- Per-socket metadata record (socketMeta map). -/
structure SMeta where
  roomId : JStr
  encNick : Option JStr
  active : Bool
deriving DecidableEq

/-- The per-connection closure variables currentRoom/currentNick. -/
structure ConnVars where
  currentRoom : Option JStr
  currentNick : Option JStr
deriving DecidableEq

/-- The server's in-memory state plus the per-room append-only log. -/
structure ServerState where
  roomMembers : List (JStr × List (JStr × List Nat))
  socketMeta : List (Nat × SMeta)
  connVars : List (Nat × ConnVars)
  readReceipts : List (JStr × List (JStr × Int))
  messageLikes : List (JStr × List (Int × List JStr))
  roomPins : List (JStr × List (Int × Pin))
  chatLog : List (JStr × List LogEntry)
deriving DecidableEq

def initialState : ServerState := ⟨[], [], [], [], [], [], []⟩

/-- addMember (server): ensure the room map and the nick's socket set
exist, then add the socket id (a JS Set add, idempotent). -/
def addMember (st : ServerState) (roomId nick : JStr) (sid : Nat) : ServerState :=
  let nicks := (alGet st.roomMembers roomId).getD []
  let sockets := (alGet nicks nick).getD []
  let sockets' := if sid ∈ sockets then sockets else sockets ++ [sid]
  { st with roomMembers := alSet st.roomMembers roomId (alSet nicks nick sockets') }

/-- removeMember (server): delete the socket id; drop the nick when its
set empties, and the room when its nick map empties. -/
def removeMember (st : ServerState) (roomId nick : JStr) (sid : Nat) : ServerState :=
  match alGet st.roomMembers roomId with
  | none => st
  | some nicks =>
    let nicks' :=
      match alGet nicks nick with
      | none => nicks
      | some sockets =>
        let sockets' := sockets.filter (fun s => s ≠ sid)
        if sockets'.length = 0 then alRemove nicks nick else alSet nicks nick sockets'
    if nicks'.length = 0 then
      { st with roomMembers := alRemove st.roomMembers roomId }
    else
      { st with roomMembers := alSet st.roomMembers roomId nicks' }

/-- getRoomCount (server, nick-deduplicated variant): the number of
nicks in the room whose socket set is non-empty. -/
def getRoomCount (st : ServerState) (roomId : JStr) : Nat :=
  match alGet st.roomMembers roomId with
  | none => 0
  | some nicks => (nicks.filter (fun p => p.2.length > 0)).length

/-- Specification-side reading of the presence invariant: the number of
distinct identities whose live-connection set is non-empty. -/
def distinctPresentNicks (st : ServerState) (roomId : JStr) : Nat :=
  ((alGet st.roomMembers roomId).getD []).countP (fun p => p.2 ≠ [])

/-- Raw number of live connections in the room (what the count must
NOT be). -/
def roomConnectionTotal (st : ServerState) (roomId : JStr) : Nat :=
  (((alGet st.roomMembers roomId).getD []).map (fun p => p.2.length)).sum

/-- The live-connection set of one identity in one room. -/
def nickSockets (st : ServerState) (roomId nick : JStr) : List Nat :=
  ((alGet st.roomMembers roomId).bind (fun nicks => alGet nicks nick)).getD []

/-- Append one entry to a room's durable log. -/
def appendLog (st : ServerState) (roomId : JStr) (e : LogEntry) : ServerState :=
  { st with chatLog := alSet st.chatLog roomId (((alGet st.chatLog roomId).getD []) ++ [e]) }

/-- Sort pins by message timestamp, as `[...].sort((a, b) => a.ts - b.ts)`. -/
def sortPins (l : List Pin) : List Pin := l.mergeSort (fun a b => decide (a.ts ≤ b.ts))

/-- Registration part of the join handler: record the closure variables
currentRoom/currentNick, add the member when the nick is truthy, and
store the socketMeta record. -/
def joinRegister (st : ServerState) (sid : Nat) (roomId : JStr) (nick : Option JStr) :
    ServerState :=
  { (match nick with
     | some n => addMember { st with connVars := alSet st.connVars sid ⟨some roomId, nick⟩ } roomId n sid
     | none => { st with connVars := alSet st.connVars sid ⟨some roomId, nick⟩ }) with
    socketMeta := alSet st.socketMeta sid ⟨roomId, nick, true⟩ }

/-- The announce guard of the join handler: the nick's socket set exists
and has size one after this socket was added. -/
def joinIsFirstSocket (st : ServerState) (roomId : JStr) (nick : Option JStr) : Bool :=
  match nick with
  | some n =>
    match (alGet st.roomMembers roomId).bind (fun nicks => alGet nicks n) with
    | some sockets => decide (sockets.length = 1)
    | none => false
  | none => false

/-- Persist the join system line when announcing. -/
def joinPersist (st : ServerState) (roomId : JStr) (nick : Option JStr) (now : Int)
    (announce : Bool) : ServerState :=
  match nick with
  | some n =>
    if announce then appendLog st roomId (LogEntry.system (String.data "join") n now)
    else st
  | none => st

/-- The join/persist notification events. -/
def joinAnnounceEvents (roomId : JStr) (nick : Option JStr) (now : Int)
    (announce : Bool) : List SEvent :=
  match nick with
  | some n =>
    if announce then
      [SEvent.logAppend roomId (LogEntry.system (String.data "join") n now),
       SEvent.userJoined roomId n]
    else []
  | none => []

/-- The pins and likes snapshots sent to the newly joined socket. -/
def joinSnapshotEvents (st : ServerState) (roomId : JStr) : List SEvent :=
  (if (sortPins (((alGet st.roomPins roomId).getD []).map (fun p => p.2))).length > 0 then
    [SEvent.pinsUpdated roomId (sortPins (((alGet st.roomPins roomId).getD []).map (fun p => p.2)))]
  else []) ++
  (if ((alGet st.messageLikes roomId).getD []).length > 0 ∧
      (((alGet st.messageLikes roomId).getD []).filter (fun p => p.2.length > 0)).length > 0 then
    [SEvent.likesSnapshot roomId
      (((alGet st.messageLikes roomId).getD []).filter (fun p => p.2.length > 0))]
  else [])

/-- The join handler (socket.on join). `nick` is the encrypted display
name, `none` covering the falsy cases of `nick || null`; `now` stands
for Date.now(). The announce guard is evaluated on the post-registration
state, so the join notification and its persisted system line fire only
when the set holds exactly this socket. -/
def handleJoin (st : ServerState) (sid : Nat) (roomId : JStr) (nick : Option JStr)
    (now : Int) : ServerState × List SEvent :=
  if isValidRoomId roomId = false then
    (st, [SEvent.errorMsg (String.data "Invalid room ID")])
  else
    (joinPersist (joinRegister st sid roomId nick) roomId nick now
       (joinIsFirstSocket (joinRegister st sid roomId nick) roomId nick),
     SEvent.onlineCount roomId (getRoomCount (joinRegister st sid roomId nick) roomId)
       :: (joinAnnounceEvents roomId nick now
            (joinIsFirstSocket (joinRegister st sid roomId nick) roomId nick)
          ++ joinSnapshotEvents (joinRegister st sid roomId nick) roomId))

/-- The room and encrypted nick a disconnecting socket was joined under:
the closure variables, falling back to the socketMeta record. -/
def disconnectTarget (st : ServerState) (sid : Nat) : Option (JStr × Option JStr) :=
  match (match ((alGet st.connVars sid).getD ⟨none, none⟩).currentRoom with
         | some r => some r
         | none => (alGet st.socketMeta sid).map (fun m => m.roomId)) with
  | none => none
  | some roomId =>
    some (roomId,
      match ((alGet st.connVars sid).getD ⟨none, none⟩).currentNick with
      | some n => some n
      | none => (alGet st.socketMeta sid).bind (fun m => m.encNick))

/-- The disconnect handler (socket.on disconnect): drop the socketMeta
record, remove the member, broadcast the new count, and announce/persist
a leave only when this was the identity's last socket. -/
def handleDisconnect (st : ServerState) (sid : Nat) (now : Int) :
    ServerState × List SEvent :=
  match disconnectTarget st sid with
  | none => ({ st with socketMeta := alRemove st.socketMeta sid }, [])
  | some (roomId, none) =>
    ({ st with socketMeta := alRemove st.socketMeta sid },
     [SEvent.onlineCount roomId
        (getRoomCount { st with socketMeta := alRemove st.socketMeta sid } roomId)])
  | some (roomId, some n) =>
    if (nickSockets (removeMember { st with socketMeta := alRemove st.socketMeta sid }
        roomId n sid) roomId n).length > 0 then
      (removeMember { st with socketMeta := alRemove st.socketMeta sid } roomId n sid,
       [SEvent.onlineCount roomId
          (getRoomCount (removeMember { st with socketMeta := alRemove st.socketMeta sid }
            roomId n sid) roomId)])
    else
      (appendLog (removeMember { st with socketMeta := alRemove st.socketMeta sid }
         roomId n sid) roomId (LogEntry.system (String.data "leave") n now),
       [SEvent.onlineCount roomId
          (getRoomCount (removeMember { st with socketMeta := alRemove st.socketMeta sid }
            roomId n sid) roomId),
        SEvent.userLeft roomId n,
        SEvent.logAppend roomId (LogEntry.system (String.data "leave") n now)])

/-- A loosely-typed JS payload field: string, number, or anything else
(object, null, undefined, boolean). -/
inductive JVal where
  | str (s : JStr)
  | num (n : Int)
  | other
deriving DecidableEq

/-- The raw message envelope as received, before shape validation. -/
structure RawEnvelope where
  iv : JVal
  data : JVal
  nick : JVal
  ts : JVal
deriving DecidableEq

/-- The message handler (socket.on message). `fsOk` models whether the
append to the room's log file succeeds. -/
def handleMessage (st : ServerState) (roomIdV : JVal) (encrypted : Option RawEnvelope)
    (fsOk : Bool) : ServerState × List SEvent :=
  match roomIdV with
  | .str roomId =>
    if isValidRoomId roomId = false then (st, [])
    else
      match encrypted with
      | none => (st, [SEvent.errorMsg (String.data "Malformed message")])
      | some e =>
        match e.iv, e.data, e.nick, e.ts with
        | .str iv, .str data, .str nick, .num ts =>
          if fsOk then
            (appendLog st roomId (LogEntry.message iv data nick ts),
             [SEvent.logAppend roomId (LogEntry.message iv data nick ts),
              SEvent.messageEvt roomId iv data nick ts])
          else (st, [SEvent.errorMsg (String.data "Storage write failed")])
        | _, _, _, _ => (st, [SEvent.errorMsg (String.data "Malformed message")])
  | _ => (st, [])

/-- The typing handler (socket.on typing): broadcast-only. -/
def handleTyping (st : ServerState) (roomIdV nickV : JVal) : ServerState × List SEvent :=
  match roomIdV, nickV with
  | .str roomId, .str nick =>
    if isValidRoomId roomId then (st, [SEvent.typingEvt roomId nick]) else (st, [])
  | _, _ => (st, [])

/-- The stop_typing handler: broadcast-only. -/
def handleStopTyping (st : ServerState) (roomIdV nickV : JVal) : ServerState × List SEvent :=
  match roomIdV, nickV with
  | .str roomId, .str nick =>
    if isValidRoomId roomId then (st, [SEvent.stopTypingEvt roomId nick]) else (st, [])
  | _, _ => (st, [])

/-- The read handler (socket.on read): last-write-wins watermark,
broadcast to the room. -/
def handleRead (st : ServerState) (roomIdV nickV upToTsV : JVal) :
    ServerState × List SEvent :=
  match roomIdV, nickV, upToTsV with
  | .str roomId, .str nick, .num upToTs =>
    if isValidRoomId roomId then
      let inner := alSet ((alGet st.readReceipts roomId).getD []) nick upToTs
      ({ st with readReceipts := alSet st.readReceipts roomId inner },
       [SEvent.readBy roomId nick upToTs])
    else (st, [])
  | _, _, _ => (st, [])

/-- The like handler (socket.on like): add the trimmed plaintext nick to
the message's reaction set and broadcast the full set. -/
def handleLike (st : ServerState) (roomIdV msgTsV nickV : JVal) :
    ServerState × List SEvent :=
  match roomIdV, msgTsV, nickV with
  | .str roomId, .num msgTs, .str nick =>
    if isValidRoomId roomId && isValidNick nick then
      let roomLikes := (alGet st.messageLikes roomId).getD []
      let cur := (alGet roomLikes msgTs).getD []
      let cur' := if jsTrim nick ∈ cur then cur else cur ++ [jsTrim nick]
      ({ st with messageLikes := alSet st.messageLikes roomId (alSet roomLikes msgTs cur') },
       [SEvent.likedEvt roomId msgTs cur'])
    else (st, [])
  | _, _, _ => (st, [])

/-- The unlike handler (socket.on unlike): remove the trimmed nick from
the set (if the room has any likes) and broadcast the resulting set. -/
def handleUnlike (st : ServerState) (roomIdV msgTsV nickV : JVal) :
    ServerState × List SEvent :=
  match roomIdV, msgTsV, nickV with
  | .str roomId, .num msgTs, .str nick =>
    if isValidRoomId roomId && isValidNick nick then
      match alGet st.messageLikes roomId with
      | none => (st, [])
      | some roomLikes =>
        match alGet roomLikes msgTs with
        | none => (st, [SEvent.likedEvt roomId msgTs []])
        | some cur =>
          let cur' := cur.filter (fun x => x ≠ jsTrim nick)
          ({ st with messageLikes := alSet st.messageLikes roomId (alSet roomLikes msgTs cur') },
           [SEvent.likedEvt roomId msgTs cur'])
    else (st, [])
  | _, _, _ => (st, [])

/-- The reaction set recorded for one message, absent entries read as
the empty set. -/
def likesAt (st : ServerState) (roomId : JStr) (msgTs : Int) : List JStr :=
  ((alGet st.messageLikes roomId).bind (fun roomLikes => alGet roomLikes msgTs)).getD []

/-! ## HTTP routes: history and files -/

/-- Result of reading the room's log file from disk. -/
inductive FsRead where
  | ok (content : JStr)
  | enoent
  | otherErr
deriving DecidableEq

/-- Response of GET /history/:roomId. -/
inductive HistoryResponse where
  | ok (lines : List JStr)
  | badRequest
  | storageError
deriving DecidableEq

/-- HTTP status of a history response (200 / 400 / 500). -/
def HistoryResponse.status : HistoryResponse → Nat
  | .ok _ => 200
  | .badRequest => 400
  | .storageError => 500

/-- The line filter of the history route:
`content.split('\n').filter(l => l.trim().length > 0)`. -/
def historyLines (content : JStr) : List JStr :=
  (splitOnChar '\n' content).filter (fun l => (jsTrim l).length > 0)

/-- GET /history/:roomId: validate the id, read the file, split into
non-blank lines; a missing file reads as an empty history, any other
storage failure is a 500. -/
def historyRoute (roomId : JStr) (read : FsRead) : HistoryResponse :=
  if isValidRoomId roomId = false then .badRequest
  else
    match read with
    | .ok content => .ok (historyLines content)
    | .enoent => .ok []
    | .otherErr => .storageError

/-- The log file content produced by appending each line plus a newline
in order (fs.appendFile of `line + '\n'`). -/
def logAfterAppends (lines : List JStr) : JStr :=
  lines.foldl (fun content line => content ++ line ++ [ '\n' ]) []

/-- Blob metadata sidecar `{iv, nick, name, mime, size, ts, roomId}`. -/
structure FileMeta where
  iv : JStr
  nick : JStr
  name : JStr
  mime : JStr
  size : Int
  ts : Int
  roomId : JStr
deriving DecidableEq

/-- The blob store contents: metadata and encrypted bytes by file id. -/
structure BlobStore where
  metaOf : JStr → Option FileMeta
  bytesOf : JStr → Option (List Nat)

/-- Response of the file download / metadata routes. -/
inductive FileResponse where
  | okBytes (bytes : List Nat)
  | okMeta (meta : FileMeta)
  | badRequest
  | forbidden
  | notFound
deriving DecidableEq

/-- HTTP status of a file response (200 / 400 / 403 / 404). -/
def FileResponse.status : FileResponse → Nat
  | .okBytes _ => 200
  | .okMeta _ => 200
  | .badRequest => 400
  | .forbidden => 403
  | .notFound => 404

/-- GET /files/:roomId/:fileId — validate ids, read the metadata (404
when missing or unparsable), reject a room mismatch with 403, then
stream the stored bytes (404 when missing). -/
def filesRoute (store : BlobStore) (roomId fileId : JStr) : FileResponse :=
  if ¬ (isValidRoomId roomId && isValidFileId fileId) then .badRequest
  else
    match store.metaOf fileId with
    | none => .notFound
    | some meta =>
      if meta.roomId ≠ roomId then .forbidden
      else
        match store.bytesOf fileId with
        | none => .notFound
        | some bytes => .okBytes bytes

/-- GET /files/:roomId/:fileId/meta — same validation and room check,
returning the metadata; the encrypted bytes are never consulted. -/
def filesMetaRoute (store : BlobStore) (roomId fileId : JStr) : FileResponse :=
  if ¬ (isValidRoomId roomId && isValidFileId fileId) then .badRequest
  else
    match store.metaOf fileId with
    | none => .notFound
    | some meta =>
      if meta.roomId ≠ roomId then .forbidden
      else .okMeta meta

/-! ## History replay (C6, C10) -/

/-- Concatenation of lines, each terminated by a newline. -/
def joinNL : List JStr → JStr
  | [] => []
  | l :: rest => l ++ '\n' :: joinNL rest

theorem logAfterAppends_join (lines : List JStr) :
    logAfterAppends lines = joinNL lines := by
  have aux : ∀ (ls : List JStr) (content : JStr),
      ls.foldl (fun c l => c ++ l ++ [ '\n' ]) content = content ++ joinNL ls := by
    intro ls
    induction ls with
    | nil => intro content; simp [joinNL]
    | cons l rest ih =>
      intro content
      simp only [List.foldl_cons, joinNL, ih]
      simp
  simpa [logAfterAppends] using aux lines []

theorem historyLines_joinNL (lines : List JStr)
    (hl : ∀ l ∈ lines, '\n' ∉ l ∧ 0 < (jsTrim l).length) :
    historyLines (joinNL lines) = lines := by
  induction lines with
  | nil =>
    simp [joinNL, historyLines, splitOnChar, jsTrim]
  | cons l rest ih =>
    have hhd := hl l (by simp)
    have htl : ∀ x ∈ rest, '\n' ∉ x ∧ 0 < (jsTrim x).length :=
      fun x hx => hl x (by simp [hx])
    simp only [joinNL, historyLines, splitOnChar_append _ _ _ hhd.1]
    rw [List.filter_cons]
    have : (decide (0 < (jsTrim l).length)) = true := by
      simp [hhd.2]
    rw [if_pos (by simp [hhd.2])]
    have ihx := ih htl
    simp only [historyLines] at ihx
    rw [ihx]

/-- C6: for every room, GET /history/:roomId over a log file built by
appending the given lines (each newline-free and non-blank, as
serialized JSON lines are) returns exactly those lines, verbatim and in
append order, so replay is reading the returned lines in order. -/
theorem c6_history_returns_appended_lines (roomId : JStr) (lines : List JStr)
    (hroom : isValidRoomId roomId = true)
    (hl : ∀ l ∈ lines, '\n' ∉ l ∧ 0 < (jsTrim l).length) :
    historyRoute roomId (FsRead.ok (logAfterAppends lines)) = HistoryResponse.ok lines := by
  unfold historyRoute
  rw [if_neg (by simp [hroom]), logAfterAppends_join]
  exact congrArg HistoryResponse.ok (historyLines_joinNL lines hl)

/-- The room id made of 64 letters a, used by concrete scenarios. -/
def aRoom : JStr := List.replicate 64 'a'

/-- Witness for C6 on two concrete appended lines. -/
theorem c6_history_returns_appended_lines_witness :
    historyRoute aRoom (FsRead.ok (logAfterAppends
      [String.data "line-one", String.data "line-two"]))
      = HistoryResponse.ok [String.data "line-one", String.data "line-two"] :=
  c6_history_returns_appended_lines aRoom
    [String.data "line-one", String.data "line-two"] (by decide) (by decide)

/-- C10: requesting history for a well-formed room whose log file does
not exist yet succeeds with status 200 and an empty lines array; only a
storage failure other than file-not-found yields a 500. -/
theorem c10_history_missing_file_ok (roomId : JStr)
    (hroom : isValidRoomId roomId = true) :
    historyRoute roomId FsRead.enoent = HistoryResponse.ok []
    ∧ (historyRoute roomId FsRead.enoent).status = 200
    ∧ historyRoute roomId FsRead.otherErr = HistoryResponse.storageError
    ∧ (historyRoute roomId FsRead.otherErr).status = 500 := by
  unfold historyRoute
  rw [if_neg (by simp [hroom]), if_neg (by simp [hroom])]
  exact ⟨rfl, rfl, rfl, rfl⟩

/-- Witness for C10 at a concrete well-formed room id. -/
theorem c10_history_missing_file_ok_witness :
    historyRoute aRoom FsRead.enoent = HistoryResponse.ok []
    ∧ (historyRoute aRoom FsRead.enoent).status = 200
    ∧ historyRoute aRoom FsRead.otherErr = HistoryResponse.storageError
    ∧ (historyRoute aRoom FsRead.otherErr).status = 500 :=
  c10_history_missing_file_ok aRoom (by decide)

/-! ## Blob scoping (C7) -/

/-- A store holding metadata (recorded under aRoom) for every file id
but no encrypted bytes. -/
def c7Store : BlobStore :=
  { metaOf := fun _ => some ⟨String.data "iv", String.data "nick", String.data "f",
      String.data "mime", 1, 2, aRoom⟩,
    bytesOf := fun _ => none }

/-- The file id made of 32 letters b. -/
def bFileId : JStr := List.replicate 32 'b'

/-- Counterexample to C7 as stated: a metadata request for a blob whose
encrypted bytes are missing does not return 404 — the metadata route
never consults the bytes and returns the stored metadata with 200. -/
theorem c7_counterexample :
    c7Store.bytesOf bFileId = none
    ∧ filesMetaRoute c7Store aRoom bFileId
        = FileResponse.okMeta ⟨String.data "iv", String.data "nick", String.data "f",
            String.data "mime", 1, 2, aRoom⟩
    ∧ (filesMetaRoute c7Store aRoom bFileId).status = 200
    ∧ filesMetaRoute c7Store aRoom bFileId ≠ FileResponse.notFound := by
  refine ⟨rfl, by decide, by decide, by decide⟩

/-- C7 amended: for well-formed ids, the download route returns 404 when
the metadata is missing, 403 when the recorded RoomId differs (this
check precedes the bytes check), 404 when the bytes are missing, and the
stored ciphertext unchanged otherwise; the metadata route returns 404
only for missing metadata, 403 on room mismatch, and the stored
metadata unchanged otherwise, without consulting the bytes. -/
theorem c7_blob_scoping (store : BlobStore) (roomId fileId : JStr)
    (hr : isValidRoomId roomId = true) (hf : isValidFileId fileId = true) :
    (store.metaOf fileId = none →
      filesRoute store roomId fileId = FileResponse.notFound
      ∧ filesMetaRoute store roomId fileId = FileResponse.notFound)
    ∧ (∀ meta, store.metaOf fileId = some meta → meta.roomId ≠ roomId →
      filesRoute store roomId fileId = FileResponse.forbidden
      ∧ filesMetaRoute store roomId fileId = FileResponse.forbidden)
    ∧ (∀ meta, store.metaOf fileId = some meta → meta.roomId = roomId →
      store.bytesOf fileId = none →
      filesRoute store roomId fileId = FileResponse.notFound)
    ∧ (∀ meta bytes, store.metaOf fileId = some meta → meta.roomId = roomId →
      store.bytesOf fileId = some bytes →
      filesRoute store roomId fileId = FileResponse.okBytes bytes
      ∧ filesMetaRoute store roomId fileId = FileResponse.okMeta meta) := by
  have hv : ¬ ¬ (isValidRoomId roomId && isValidFileId fileId) = true := by
    simp [hr, hf]
  refine ⟨?_, ?_, ?_, ?_⟩
  · intro hmeta
    unfold filesRoute filesMetaRoute
    rw [if_neg hv, if_neg hv, hmeta]
    exact ⟨rfl, rfl⟩
  · intro meta hmeta hne
    unfold filesRoute filesMetaRoute
    rw [if_neg hv, if_neg hv, hmeta]
    simp only [hne, if_true]
    rw [if_pos hne, if_pos hne]
    exact ⟨rfl, rfl⟩
  · intro meta hmeta heq hbytes
    unfold filesRoute
    rw [if_neg hv, hmeta, hbytes]
    simp [heq]
  · intro meta bytes hmeta heq hbytes
    unfold filesRoute filesMetaRoute
    rw [if_neg hv, if_neg hv, hmeta, hbytes]
    exact ⟨by simp [heq], by simp [heq]⟩

/-- A store with one blob recorded under aRoom with stored bytes. -/
def fullStore : BlobStore :=
  { metaOf := fun _ => some ⟨String.data "iv", String.data "nick", String.data "f",
      String.data "mime", 1, 2, aRoom⟩,
    bytesOf := fun _ => some [1, 2, 3] }

/-- The room id made of 64 letters c (a different room). -/
def cRoom : JStr := List.replicate 64 'c'

/-- Witness for the amended C7: fetching a valid fileId under a
different roomId than the recorded one yields 403. -/
theorem c7_blob_scoping_witness :
    filesRoute fullStore cRoom bFileId = FileResponse.forbidden
    ∧ filesMetaRoute fullStore cRoom bFileId = FileResponse.forbidden :=
  (c7_blob_scoping fullStore cRoom bFileId (by decide) (by decide)).2.1
    ⟨String.data "iv", String.data "nick", String.data "f",
      String.data "mime", 1, 2, aRoom⟩ rfl (by decide)

/-! ## Reaction sets (C8) -/

theorem likesAt_eq_getD (st : ServerState) (r : JStr) (ts : Int) :
    likesAt st r ts = (alGet ((alGet st.messageLikes r).getD []) ts).getD [] := by
  unfold likesAt
  cases alGet st.messageLikes r <;> simp [alGet]

theorem likesAt_handleLike (st : ServerState) (r nick : JStr) (ts : Int)
    (hr : isValidRoomId r = true) (hn : isValidNick nick = true) :
    likesAt (handleLike st (JVal.str r) (JVal.num ts) (JVal.str nick)).1 r ts =
      (if jsTrim nick ∈ likesAt st r ts then likesAt st r ts
       else likesAt st r ts ++ [jsTrim nick]) := by
  have hcond : (isValidRoomId r && isValidNick nick) = true := by simp [hr, hn]
  simp only [handleLike, hcond, eq_self_iff_true, if_true]
  rw [likesAt_eq_getD, likesAt_eq_getD]
  simp only [alGet_alSet_same, Option.getD_some]

theorem likesAt_handleUnlike (st : ServerState) (r nick : JStr) (ts : Int)
    (hr : isValidRoomId r = true) (hn : isValidNick nick = true) :
    likesAt (handleUnlike st (JVal.str r) (JVal.num ts) (JVal.str nick)).1 r ts =
      (likesAt st r ts).filter (fun x => x ≠ jsTrim nick) := by
  have hcond : (isValidRoomId r && isValidNick nick) = true := by simp [hr, hn]
  simp only [handleUnlike, hcond, eq_self_iff_true, if_true]
  cases hml : alGet st.messageLikes r with
  | none => simp [likesAt, hml]
  | some roomLikes =>
    cases hkey : alGet roomLikes ts with
    | none =>
      rw [likesAt_eq_getD, likesAt_eq_getD]
      simp [hml, hkey]
    | some cur =>
      rw [likesAt_eq_getD, likesAt_eq_getD]
      simp [hml, hkey, alGet_alSet_same]

/-- A valid plaintext display name used in concrete scenarios. -/
def aliceNick : JStr := String.data "alice"

/-- The state after alice has liked message 5 in aRoom. -/
def c8Liked : ServerState :=
  (handleLike initialState (JVal.str aRoom) (JVal.num 5) (JVal.str aliceNick)).1

/-- Counterexample to C8 as stated: starting from a state where the
identity has already reacted, like-then-unlike removes the reaction,
leaving the set different from the prior state. -/
theorem c8_counterexample :
    likesAt c8Liked aRoom 5 = [aliceNick]
    ∧ likesAt (handleUnlike (handleLike c8Liked (JVal.str aRoom) (JVal.num 5)
        (JVal.str aliceNick)).1 (JVal.str aRoom) (JVal.num 5)
        (JVal.str aliceNick)).1 aRoom 5 = []
    ∧ likesAt (handleUnlike (handleLike c8Liked (JVal.str aRoom) (JVal.num 5)
        (JVal.str aliceNick)).1 (JVal.str aRoom) (JVal.num 5)
        (JVal.str aliceNick)).1 aRoom 5 ≠ likesAt c8Liked aRoom 5 := by
  refine ⟨by decide, by decide, by decide⟩

/-- C8 amended: like followed by unlike for the same identity restores
the message's reaction set provided the (trimmed) identity had not
already reacted; and from a message with no reactions, likes by two
identities that are distinct after trimming yield a set of size two. -/
theorem c8_reaction_toggle (st : ServerState) (roomId nick1 nick2 : JStr) (msgTs : Int)
    (hr : isValidRoomId roomId = true) (h1 : isValidNick nick1 = true)
    (h2 : isValidNick nick2 = true) :
    (jsTrim nick1 ∉ likesAt st roomId msgTs →
      likesAt (handleUnlike (handleLike st (JVal.str roomId) (JVal.num msgTs)
          (JVal.str nick1)).1 (JVal.str roomId) (JVal.num msgTs) (JVal.str nick1)).1
        roomId msgTs = likesAt st roomId msgTs)
    ∧ (likesAt st roomId msgTs = [] → jsTrim nick1 ≠ jsTrim nick2 →
      (likesAt (handleLike (handleLike st (JVal.str roomId) (JVal.num msgTs)
          (JVal.str nick1)).1 (JVal.str roomId) (JVal.num msgTs) (JVal.str nick2)).1
        roomId msgTs).length = 2) := by
  constructor
  · intro hmem
    rw [likesAt_handleUnlike _ _ _ _ hr h1, likesAt_handleLike _ _ _ _ hr h1,
      if_neg hmem, List.filter_append]
    have hself : (likesAt st roomId msgTs).filter (fun x => x ≠ jsTrim nick1)
        = likesAt st roomId msgTs := by
      apply List.filter_eq_self.mpr
      intro x hx
      simp only [ne_eq, decide_not, Bool.not_eq_eq_eq_not, Bool.not_true,
        decide_eq_false_iff_not]
      exact fun he => hmem (he ▸ hx)
    have hone : [jsTrim nick1].filter (fun x => x ≠ jsTrim nick1) = [] := by simp
    rw [hself, hone, List.append_nil]
  · intro hempty hne
    rw [likesAt_handleLike _ _ _ _ hr h2, likesAt_handleLike _ _ _ _ hr h1, hempty]
    simp only [List.not_mem_nil, if_neg (fun h => h : ¬ False), List.nil_append,
      List.mem_singleton]
    rw [if_neg (fun h => hne h.symm)]
    rfl

/-- Witness for the amended C8: bob likes then unlikes a fresh message;
the (empty) reaction set is restored. -/
theorem c8_reaction_toggle_witness :
    likesAt (handleUnlike (handleLike initialState (JVal.str aRoom) (JVal.num 5)
        (JVal.str (String.data "bob"))).1 (JVal.str aRoom) (JVal.num 5)
        (JVal.str (String.data "bob"))).1 aRoom 5 = likesAt initialState aRoom 5 :=
  (c8_reaction_toggle initialState aRoom (String.data "bob") (String.data "carol") 5
    (by decide) (by decide) (by decide)).1 (by decide)

/-! ## Malformed realtime payloads (C9) -/

/-- The envelope shape check of the message handler. -/
def envelopeWellFormed : Option RawEnvelope → Prop
  | some e => ∃ iv data nick ts, e.iv = JVal.str iv ∧ e.data = JVal.str data ∧
      e.nick = JVal.str nick ∧ e.ts = JVal.num ts
  | none => False

/-- Counterexample to C9 as stated: a read event with a non-string nick
is dropped with NO events emitted at all — the server does not send an
explicit error event for it (and mutates nothing). -/
theorem c9_counterexample :
    handleRead initialState (JVal.str aRoom) JVal.other (JVal.num 5)
      = (initialState, []) := rfl

/-- C9 amended: every malformed realtime payload leaves all server
state unchanged; a malformed message envelope under a valid room id is
answered with an explicit error event, while malformed read / typing /
stop_typing / like / unlike payloads (and messages with an invalid or
non-string room id) are dropped silently with no events at all. -/
theorem c9_malformed_rejected (st : ServerState) :
    (∀ rv nv tv, ¬ (∃ r n t, rv = JVal.str r ∧ nv = JVal.str n ∧ tv = JVal.num t ∧
        isValidRoomId r = true) → handleRead st rv nv tv = (st, []))
    ∧ (∀ rv nv, ¬ (∃ r n, rv = JVal.str r ∧ nv = JVal.str n ∧ isValidRoomId r = true) →
        handleTyping st rv nv = (st, []) ∧ handleStopTyping st rv nv = (st, []))
    ∧ (∀ rv tv nv, ¬ (∃ r t n, rv = JVal.str r ∧ tv = JVal.num t ∧ nv = JVal.str n ∧
        isValidRoomId r = true ∧ isValidNick n = true) →
        handleLike st rv tv nv = (st, []) ∧ handleUnlike st rv tv nv = (st, []))
    ∧ (∀ r e fsOk, isValidRoomId r = true → ¬ envelopeWellFormed e →
        handleMessage st (JVal.str r) e fsOk
          = (st, [SEvent.errorMsg (String.data "Malformed message")]))
    ∧ (∀ rv e fsOk, (∀ r, rv = JVal.str r → isValidRoomId r = false) →
        handleMessage st rv e fsOk = (st, [])) := by
  refine ⟨?_, ?_, ?_, ?_, ?_⟩
  · intro rv nv tv h
    rcases rv with r | r | _ <;> rcases nv with n | n | _ <;>
      rcases tv with t | t | _ <;> try rfl
    have hv : isValidRoomId r = false := by
      rcases Bool.eq_false_or_eq_true (isValidRoomId r) with hb | hb
      · exact absurd ⟨r, n, t, rfl, rfl, rfl, hb⟩ h
      · exact hb
    simp [handleRead, hv]
  · intro rv nv h
    rcases rv with r | r | _ <;> rcases nv with n | n | _ <;> try exact ⟨rfl, rfl⟩
    have hv : isValidRoomId r = false := by
      rcases Bool.eq_false_or_eq_true (isValidRoomId r) with hb | hb
      · exact absurd ⟨r, n, rfl, rfl, hb⟩ h
      · exact hb
    constructor <;> simp [handleTyping, handleStopTyping, hv]
  · intro rv tv nv h
    rcases rv with r | r | _ <;> rcases tv with t | t | _ <;>
      rcases nv with n | n | _ <;> try exact ⟨rfl, rfl⟩
    have hv : (isValidRoomId r && isValidNick n) = false := by
      rcases Bool.eq_false_or_eq_true (isValidRoomId r) with hb | hb
      · rcases Bool.eq_false_or_eq_true (isValidNick n) with hc | hc
        · exact absurd ⟨r, t, n, rfl, rfl, rfl, hb, hc⟩ h
        · simp [hc]
      · simp [hb]
    constructor <;> simp [handleLike, handleUnlike, hv]
  · intro r e fsOk hr hwf
    rcases e with _ | ⟨iv, data, nick, ts⟩
    · simp [handleMessage, hr]
    · rcases iv with s1 | n1 | _ <;> rcases data with s2 | n2 | _ <;>
        rcases nick with s3 | n3 | _ <;> rcases ts with s4 | n4 | _ <;>
        first
          | (simp [handleMessage, hr]
             done)
          | exact absurd ⟨_, _, _, _, rfl, rfl, rfl, rfl⟩ hwf
  · intro rv e fsOk h
    rcases rv with r | r | _
    · have hv := h r rfl
      simp [handleMessage, hv]
    · rfl
    · rfl

/-- Witness for the amended C9: a read with a non-string nick and a
message with a malformed envelope, at concrete inputs. -/
theorem c9_malformed_rejected_witness :
    handleRead initialState (JVal.str aRoom) JVal.other (JVal.num 3)
      = (initialState, [])
    ∧ handleMessage initialState (JVal.str aRoom)
        (some ⟨JVal.str (String.data "iv"), JVal.str (String.data "ct"),
          JVal.str (String.data "nk"), JVal.other⟩) true
      = (initialState, [SEvent.errorMsg (String.data "Malformed message")]) :=
  ⟨(c9_malformed_rejected initialState).1 (JVal.str aRoom) JVal.other (JVal.num 3)
    (by rintro ⟨r, n, t, hr, hn, ht, hv⟩; cases hn),
   (c9_malformed_rejected initialState).2.2.2.1 aRoom
    (some ⟨JVal.str (String.data "iv"), JVal.str (String.data "ct"),
      JVal.str (String.data "nk"), JVal.other⟩) true (by decide)
    (by rintro ⟨iv, data, nick, ts, hiv, hdata, hnick, hts⟩; cases hts)⟩

/-! ## Presence transitions (C4, C5) -/

theorem alGet_alRemove_same {α β : Type} [DecidableEq α]
    (m : List (α × β)) (k : α) : alGet (alRemove m k) k = none := by
  induction m with
  | nil => rfl
  | cons p rest ih =>
    obtain ⟨k0, v0⟩ := p
    by_cases h : k0 = k <;> simp [alRemove, alGet, h, ih]

theorem alSet_length_pos {α β : Type} [DecidableEq α]
    (m : List (α × β)) (k : α) (v : β) : 0 < (alSet m k v).length := by
  induction m with
  | nil => simp [alSet]
  | cons p rest ih =>
    obtain ⟨k0, v0⟩ := p
    by_cases h : k0 = k <;> simp [alSet, h]

theorem nickSockets_eq_getD (st : ServerState) (r n : JStr) :
    nickSockets st r n = (alGet ((alGet st.roomMembers r).getD []) n).getD [] := by
  unfold nickSockets
  cases alGet st.roomMembers r <;> simp [alGet]

theorem nickSockets_addMember_same (st : ServerState) (r n : JStr) (sid : Nat) :
    nickSockets (addMember st r n sid) r n =
      (if sid ∈ nickSockets st r n then nickSockets st r n
       else nickSockets st r n ++ [sid]) := by
  unfold addMember
  rw [nickSockets_eq_getD, nickSockets_eq_getD]
  simp only [alGet_alSet_same, Option.getD_some]

theorem nickSockets_removeMember_same (st : ServerState) (r n : JStr) (sid : Nat) :
    nickSockets (removeMember st r n sid) r n =
      (nickSockets st r n).filter (fun x => x ≠ sid) := by
  unfold removeMember
  cases hroom : alGet st.roomMembers r with
  | none =>
    have hcur : nickSockets st r n = [] := by simp [nickSockets, hroom]
    simp [hcur]
  | some nicks =>
    cases hnick : alGet nicks n with
    | none =>
      have hcur : nickSockets st r n = [] := by simp [nickSockets, hroom, hnick]
      rw [hcur]
      simp only [hnick, List.filter_nil]
      split
      · simp [nickSockets, alGet_alRemove_same]
      · simp [nickSockets, alGet_alSet_same, hnick]
    | some sockets =>
      have hcur : nickSockets st r n = sockets := by simp [nickSockets, hroom, hnick]
      rw [hcur]
      simp only [hnick]
      by_cases hlen : (sockets.filter (fun s => s ≠ sid)).length = 0
      · have hnil : sockets.filter (fun s => s ≠ sid) = [] := List.length_eq_zero.mp hlen
        rw [if_pos hlen, hnil]
        split
        · simp [nickSockets, alGet_alRemove_same]
        · simp [nickSockets, alGet_alSet_same, alGet_alRemove_same]
      · rw [if_neg hlen]
        rw [if_neg (by
          have := alSet_length_pos nicks n (sockets.filter (fun s => s ≠ sid))
          omega)]
        simp [nickSockets, alGet_alSet_same]

theorem removeMember_connVars (st : ServerState) (r n : JStr) (sid : Nat) :
    (removeMember st r n sid).connVars = st.connVars := by
  unfold removeMember
  split
  · rfl
  · rw [apply_ite ServerState.connVars]
    simp

theorem getRoomCount_eq_distinct (st : ServerState) (r : JStr) :
    getRoomCount st r = distinctPresentNicks st r := by
  unfold getRoomCount distinctPresentNicks
  cases alGet st.roomMembers r with
  | none => simp
  | some nicks =>
    simp only [Option.getD_some]
    rw [List.countP_eq_length_filter]
    congr 1
    apply List.filter_congr
    intro x hx
    cases hx2 : x.2 <;> simp

def isUserJoined : SEvent → Bool
  | SEvent.userJoined _ _ => true
  | _ => false

def isUserLeft : SEvent → Bool
  | SEvent.userLeft _ _ => true
  | _ => false

theorem nickSockets_joinRegister (st : ServerState) (sid : Nat) (r n : JStr) :
    nickSockets (joinRegister st sid r (some n)) r n =
      (if sid ∈ nickSockets st r n then nickSockets st r n
       else nickSockets st r n ++ [sid]) := by
  show nickSockets (addMember { st with
    connVars := alSet st.connVars sid ⟨some r, some n⟩ } r n sid) r n = _
  rw [nickSockets_addMember_same]
  rfl

theorem addMember_lookup (st : ServerState) (r n : JStr) (sid : Nat) :
    (alGet (addMember st r n sid).roomMembers r).bind (fun nicks => alGet nicks n)
      = some (nickSockets (addMember st r n sid) r n) := by
  unfold addMember
  simp [alGet_alSet_same, nickSockets, Option.bind]

theorem joinIsFirstSocket_joinRegister (st : ServerState) (sid : Nat) (r n : JStr) :
    joinIsFirstSocket (joinRegister st sid r (some n)) r (some n)
      = decide ((nickSockets (joinRegister st sid r (some n)) r n).length = 1) := by
  have hsome : (alGet (joinRegister st sid r (some n)).roomMembers r).bind
      (fun nicks => alGet nicks n)
      = some (nickSockets (joinRegister st sid r (some n)) r n) :=
    addMember_lookup { st with connVars := alSet st.connVars sid ⟨some r, some n⟩ } r n sid
  unfold joinIsFirstSocket
  show (match (alGet (joinRegister st sid r (some n)).roomMembers r).bind
      (fun nicks => alGet nicks n) with
    | some sockets => decide (sockets.length = 1)
    | none => false) = _
  rw [hsome]

theorem nickSockets_joinPersist (st : ServerState) (r' : JStr) (nick : Option JStr)
    (now : Int) (b : Bool) (r n : JStr) :
    nickSockets (joinPersist st r' nick now b) r n = nickSockets st r n := by
  unfold joinPersist
  cases nick
  · rfl
  · cases b <;> rfl

theorem joinPersist_connVars (st : ServerState) (r' : JStr) (nick : Option JStr)
    (now : Int) (b : Bool) :
    (joinPersist st r' nick now b).connVars = st.connVars := by
  unfold joinPersist
  cases nick
  · rfl
  · cases b <;> rfl

theorem joinRegister_connVars (st : ServerState) (sid : Nat) (r : JStr)
    (nick : Option JStr) :
    (joinRegister st sid r nick).connVars = alSet st.connVars sid ⟨some r, nick⟩ := by
  cases nick <;> rfl

theorem countP_isUserJoined_snapshots (st : ServerState) (r : JStr) :
    (joinSnapshotEvents st r).countP isUserJoined = 0 := by
  unfold joinSnapshotEvents
  split <;> split <;> rfl

theorem userJoined_not_mem_snapshots (st : ServerState) (r r' n' : JStr) :
    SEvent.userJoined r' n' ∉ joinSnapshotEvents st r := by
  unfold joinSnapshotEvents
  split <;> split <;> simp

theorem logAppend_not_mem_snapshots (st : ServerState) (r r' : JStr) (e : LogEntry) :
    SEvent.logAppend r' e ∉ joinSnapshotEvents st r := by
  unfold joinSnapshotEvents
  split <;> split <;> simp

theorem handleJoin_effect (st : ServerState) (sid : Nat) (r n : JStr) (now : Int)
    (hv : isValidRoomId r = true) (hsid : sid ∉ nickSockets st r n) :
    nickSockets (handleJoin st sid r (some n) now).1 r n = nickSockets st r n ++ [sid]
    ∧ (handleJoin st sid r (some n) now).2.countP isUserJoined
        = (if nickSockets st r n = [] then 1 else 0)
    ∧ (SEvent.userJoined r n ∈ (handleJoin st sid r (some n) now).2
        ↔ nickSockets st r n = [])
    ∧ (SEvent.logAppend r (LogEntry.system (String.data "join") n now)
        ∈ (handleJoin st sid r (some n) now).2 ↔ nickSockets st r n = [])
    ∧ (handleJoin st sid r (some n) now).1.connVars
        = alSet st.connVars sid ⟨some r, some n⟩ := by
  have hreg : nickSockets (joinRegister st sid r (some n)) r n
      = nickSockets st r n ++ [sid] := by
    rw [nickSockets_joinRegister, if_neg hsid]
  have hfirst : joinIsFirstSocket (joinRegister st sid r (some n)) r (some n)
      = decide (nickSockets st r n = []) := by
    rw [joinIsFirstSocket_joinRegister, hreg, decide_eq_decide, List.length_append]
    simp [List.length_eq_zero]
  have hjoin : handleJoin st sid r (some n) now =
      (joinPersist (joinRegister st sid r (some n)) r (some n) now
         (decide (nickSockets st r n = [])),
       SEvent.onlineCount r (getRoomCount (joinRegister st sid r (some n)) r)
         :: (joinAnnounceEvents r (some n) now (decide (nickSockets st r n = []))
            ++ joinSnapshotEvents (joinRegister st sid r (some n)) r)) := by
    unfold handleJoin
    rw [if_neg (by simp [hv]), hfirst]
  rw [hjoin]
  by_cases hcur : nickSockets st r n = []
  · have hb : decide (nickSockets st r n = []) = true := by simp [hcur]
    rw [hb]
    have hann : joinAnnounceEvents r (some n) now true =
        [SEvent.logAppend r (LogEntry.system (String.data "join") n now),
         SEvent.userJoined r n] := rfl
    refine ⟨?_, ?_, ?_, ?_, ?_⟩
    · dsimp only
      rw [nickSockets_joinPersist, hreg]
    · dsimp only
      rw [hann]
      simp only [List.countP_cons, List.countP_append, countP_isUserJoined_snapshots]
      simp [isUserJoined, hcur]
    · dsimp only
      rw [hann]
      simp [hcur, List.mem_append]
    · dsimp only
      rw [hann]
      simp [hcur, List.mem_append]
    · dsimp only
      rw [joinPersist_connVars, joinRegister_connVars]
  · have hb : decide (nickSockets st r n = []) = false := by simp [hcur]
    rw [hb]
    have hann : joinAnnounceEvents r (some n) now false = [] := rfl
    refine ⟨?_, ?_, ?_, ?_, ?_⟩
    · dsimp only
      rw [nickSockets_joinPersist, hreg]
    · dsimp only
      rw [hann]
      simp only [List.countP_cons, List.countP_append, countP_isUserJoined_snapshots]
      simp [isUserJoined, hcur]
    · dsimp only
      rw [hann]
      simp [hcur, List.mem_append, userJoined_not_mem_snapshots]
    · dsimp only
      rw [hann]
      simp [hcur, List.mem_append, logAppend_not_mem_snapshots]
    · dsimp only
      rw [joinPersist_connVars, joinRegister_connVars]

theorem handleDisconnect_effect (st : ServerState) (sid : Nat) (r n : JStr) (now : Int)
    (hconn : alGet st.connVars sid = some ⟨some r, some n⟩) :
    nickSockets (handleDisconnect st sid now).1 r n
        = (nickSockets st r n).filter (fun x => x ≠ sid)
    ∧ (handleDisconnect st sid now).2.countP isUserLeft
        = (if (nickSockets st r n).filter (fun x => x ≠ sid) = [] then 1 else 0)
    ∧ (SEvent.userLeft r n ∈ (handleDisconnect st sid now).2
        ↔ (nickSockets st r n).filter (fun x => x ≠ sid) = [])
    ∧ (SEvent.logAppend r (LogEntry.system (String.data "leave") n now)
        ∈ (handleDisconnect st sid now).2
        ↔ (nickSockets st r n).filter (fun x => x ≠ sid) = [])
    ∧ (handleDisconnect st sid now).1.connVars = st.connVars := by
  have htarget : disconnectTarget st sid = some (r, some n) := by
    simp [disconnectTarget, hconn]
  have hrm : nickSockets
      (removeMember { st with socketMeta := alRemove st.socketMeta sid } r n sid) r n
      = (nickSockets st r n).filter (fun x => x ≠ sid) := by
    rw [nickSockets_removeMember_same]
    rfl
  have happ : ∀ (X : ServerState) (r' : JStr) (e : LogEntry),
      nickSockets (appendLog X r' e) r n = nickSockets X r n := fun _ _ _ => rfl
  have hcv : ∀ (X : ServerState) (r' : JStr) (e : LogEntry),
      (appendLog X r' e).connVars = X.connVars := fun _ _ _ => rfl
  by_cases hfil : (nickSockets st r n).filter (fun x => x ≠ sid) = []
  · have hdis : handleDisconnect st sid now =
        (appendLog (removeMember { st with socketMeta := alRemove st.socketMeta sid }
           r n sid) r (LogEntry.system (String.data "leave") n now),
         [SEvent.onlineCount r
            (getRoomCount (removeMember { st with socketMeta := alRemove st.socketMeta sid }
              r n sid) r),
          SEvent.userLeft r n,
          SEvent.logAppend r (LogEntry.system (String.data "leave") n now)]) := by
      unfold handleDisconnect
      rw [htarget]
      dsimp only
      rw [if_neg (by rw [hrm, hfil]; simp)]
    rw [hdis]
    refine ⟨?_, ?_, ?_, ?_, ?_⟩
    · dsimp only
      rw [happ]
      exact hrm
    · dsimp only
      rw [if_pos hfil]
      simp [List.countP_cons, isUserLeft]
    · dsimp only
      exact iff_of_true (by simp) hfil
    · dsimp only
      exact iff_of_true (by simp) hfil
    · dsimp only
      rw [hcv, removeMember_connVars]
  · have hdis : handleDisconnect st sid now =
        (removeMember { st with socketMeta := alRemove st.socketMeta sid } r n sid,
         [SEvent.onlineCount r
            (getRoomCount (removeMember { st with socketMeta := alRemove st.socketMeta sid }
              r n sid) r)]) := by
      unfold handleDisconnect
      rw [htarget]
      dsimp only
      rw [if_pos (by rw [hrm]; exact List.length_pos.mpr hfil)]
    rw [hdis]
    refine ⟨?_, ?_, ?_, ?_, ?_⟩
    · dsimp only
      exact hrm
    · dsimp only
      rw [if_neg hfil]
      simp [List.countP_cons, isUserLeft]
    · dsimp only
      exact iff_of_false (by simp) hfil
    · dsimp only
      exact iff_of_false (by simp) hfil
    · dsimp only
      rw [removeMember_connVars]

theorem handleJoin_connVars (st : ServerState) (sid : Nat) (r : JStr)
    (nick : Option JStr) (now : Int) (hv : isValidRoomId r = true) :
    (handleJoin st sid r nick now).1.connVars
      = alSet st.connVars sid ⟨some r, nick⟩ := by
  unfold handleJoin
  rw [if_neg (by simp [hv])]
  dsimp only
  rw [joinPersist_connVars, joinRegister_connVars]

theorem handleDisconnect_connVars (st : ServerState) (sid : Nat) (now : Int) :
    (handleDisconnect st sid now).1.connVars = st.connVars := by
  unfold handleDisconnect
  split
  · rfl
  · rfl
  · split
    · dsimp only
      rw [removeMember_connVars]
    · dsimp only
      rw [show ∀ (X : ServerState) (r' : JStr) (e : LogEntry),
          (appendLog X r' e).connVars = X.connVars from fun _ _ _ => rfl,
        removeMember_connVars]

/-- Run the join handler once per socket id, in order, under one room
and one encrypted nick, collecting all emitted events. -/
def runJoins (r n : JStr) (now : Int) : ServerState → List Nat → ServerState × List SEvent
  | st, [] => (st, [])
  | st, sid :: rest =>
    ((runJoins r n now (handleJoin st sid r (some n) now).1 rest).1,
     (handleJoin st sid r (some n) now).2
       ++ (runJoins r n now (handleJoin st sid r (some n) now).1 rest).2)

/-- Run the disconnect handler once per socket id, in order. -/
def runDisconnects (now : Int) : ServerState → List Nat → ServerState × List SEvent
  | st, [] => (st, [])
  | st, sid :: rest =>
    ((runDisconnects now (handleDisconnect st sid now).1 rest).1,
     (handleDisconnect st sid now).2
       ++ (runDisconnects now (handleDisconnect st sid now).1 rest).2)

theorem runJoins_spec (r n : JStr) (now : Int) (hv : isValidRoomId r = true) :
    ∀ (sids : List Nat) (st : ServerState), sids.Nodup →
      (∀ s ∈ sids, s ∉ nickSockets st r n) →
      nickSockets (runJoins r n now st sids).1 r n = nickSockets st r n ++ sids
      ∧ (runJoins r n now st sids).2.countP isUserJoined
          = (if nickSockets st r n = [] ∧ sids ≠ [] then 1 else 0) := by
  intro sids
  induction sids with
  | nil =>
    intro st _ _
    exact ⟨by simp [runJoins], by simp [runJoins]⟩
  | cons sid rest ih =>
    intro st hnodup hfresh
    obtain ⟨h1, h2, _, _, _⟩ :=
      handleJoin_effect st sid r n now hv (hfresh sid (List.mem_cons_self _ _))
    have hsidrest : sid ∉ rest := (List.nodup_cons.mp hnodup).1
    have hfresh' : ∀ s ∈ rest, s ∉ nickSockets (handleJoin st sid r (some n) now).1 r n := by
      intro s hs
      rw [h1]
      intro hmem
      rcases List.mem_append.mp hmem with h | h
      · exact hfresh s (List.mem_cons_of_mem _ hs) h
      · exact hsidrest (by rw [← List.mem_singleton.mp h]; exact hs)
    obtain ⟨ih1, ih2⟩ := ih (handleJoin st sid r (some n) now).1
      (List.nodup_cons.mp hnodup).2 hfresh'
    constructor
    · show nickSockets (runJoins r n now (handleJoin st sid r (some n) now).1 rest).1 r n = _
      rw [ih1, h1]
      simp [List.append_assoc]
    · show ((handleJoin st sid r (some n) now).2
        ++ (runJoins r n now (handleJoin st sid r (some n) now).1 rest).2).countP isUserJoined = _
      rw [List.countP_append, h2, ih2, h1]
      by_cases hcur : nickSockets st r n = []
      · simp [hcur]
      · simp [hcur]

theorem runJoins_connVars_not_mem (r n : JStr) (now : Int) (hv : isValidRoomId r = true) :
    ∀ (sids : List Nat) (st : ServerState) (s : Nat), s ∉ sids →
      alGet (runJoins r n now st sids).1.connVars s = alGet st.connVars s := by
  intro sids
  induction sids with
  | nil => intro st s _; rfl
  | cons sid rest ih =>
    intro st s hs
    show alGet (runJoins r n now (handleJoin st sid r (some n) now).1 rest).1.connVars s = _
    rw [ih (handleJoin st sid r (some n) now).1 s (fun h => hs (List.mem_cons_of_mem _ h)),
      handleJoin_connVars st sid r (some n) now hv]
    exact alGet_alSet_other _ _ _ _ (fun h => hs (h ▸ List.mem_cons_self _ _))

theorem runJoins_connVars (r n : JStr) (now : Int) (hv : isValidRoomId r = true) :
    ∀ (sids : List Nat) (st : ServerState) (s : Nat), s ∈ sids → sids.Nodup →
      alGet (runJoins r n now st sids).1.connVars s = some ⟨some r, some n⟩ := by
  intro sids
  induction sids with
  | nil => intro st s hs _; exact absurd hs (List.not_mem_nil s)
  | cons sid rest ih =>
    intro st s hs hnodup
    show alGet (runJoins r n now (handleJoin st sid r (some n) now).1 rest).1.connVars s = _
    by_cases hsr : s ∈ rest
    · exact ih (handleJoin st sid r (some n) now).1 s hsr (List.nodup_cons.mp hnodup).2
    · have hssid : s = sid := by
        rcases List.mem_cons.mp hs with h | h
        · exact h
        · exact absurd h hsr
      rw [runJoins_connVars_not_mem r n now hv rest _ s hsr,
        handleJoin_connVars st sid r (some n) now hv, hssid]
      exact alGet_alSet_same _ _ _

theorem runDisconnects_spec (r n : JStr) (now : Int) :
    ∀ (sids : List Nat) (st : ServerState), sids.Nodup →
      nickSockets st r n = sids →
      (∀ s ∈ sids, alGet st.connVars s = some ⟨some r, some n⟩) →
      nickSockets (runDisconnects now st sids).1 r n = []
      ∧ (runDisconnects now st sids).2.countP isUserLeft
          = (if sids = [] then 0 else 1) := by
  intro sids
  induction sids with
  | nil =>
    intro st _ hsock _
    exact ⟨by rw [show (runDisconnects now st []).1 = st from rfl, hsock],
      by simp [runDisconnects]⟩
  | cons sid rest ih =>
    intro st hnodup hsock hconn
    obtain ⟨h1, h2, _, _, h5⟩ :=
      handleDisconnect_effect st sid r n now (hconn sid (List.mem_cons_self _ _))
    have hsidrest : sid ∉ rest := (List.nodup_cons.mp hnodup).1
    have hfilter : (nickSockets st r n).filter (fun x => x ≠ sid) = rest := by
      rw [hsock]
      simp only [List.filter_cons]
      rw [if_neg (by simp)]
      exact List.filter_eq_self.mpr (fun a ha => by
        simp only [ne_eq, decide_eq_true_eq]
        intro heq
        exact hsidrest (heq ▸ ha))
    have hsock1 : nickSockets (handleDisconnect st sid now).1 r n = rest := by
      rw [h1, hfilter]
    have hconn1 : ∀ s ∈ rest,
        alGet (handleDisconnect st sid now).1.connVars s = some ⟨some r, some n⟩ := by
      intro s hs
      rw [h5]
      exact hconn s (List.mem_cons_of_mem _ hs)
    obtain ⟨ih1, ih2⟩ := ih (handleDisconnect st sid now).1
      (List.nodup_cons.mp hnodup).2 hsock1 hconn1
    constructor
    · exact ih1
    · show ((handleDisconnect st sid now).2
        ++ (runDisconnects now (handleDisconnect st sid now).1 rest).2).countP isUserLeft = _
      rw [List.countP_append, h2, ih2, hfilter]
      by_cases hrest : rest = []
      · simp [hrest]
      · simp [hrest]

theorem getRoomCount_joinPersist (st : ServerState) (r' : JStr) (nick : Option JStr)
    (now : Int) (b : Bool) (r : JStr) :
    getRoomCount (joinPersist st r' nick now b) r = getRoomCount st r := by
  unfold joinPersist
  cases nick
  · rfl
  · cases b <;> rfl

theorem onlineCount_not_mem_announce (r' : JStr) (nick : Option JStr) (now : Int)
    (b : Bool) (r : JStr) (c : Nat) :
    SEvent.onlineCount r c ∉ joinAnnounceEvents r' nick now b := by
  cases nick with
  | none => simp [joinAnnounceEvents]
  | some n =>
    unfold joinAnnounceEvents
    dsimp only
    split <;> simp

theorem onlineCount_not_mem_snapshots (st : ServerState) (r' r : JStr) (c : Nat) :
    SEvent.onlineCount r c ∉ joinSnapshotEvents st r' := by
  unfold joinSnapshotEvents
  split <;> split <;> simp

/-- C4 counterexample: the join announce guard checks only that the
identity's socket set has size one after registration, not that a 0→1
transition happened. A second join from the very same socket leaves the
set at size one, so user_joined is emitted again although the identity's
live-connection set was already non-empty before the join. -/
theorem c4_counterexample :
    nickSockets (handleJoin initialState 0 aRoom (some aliceNick) 0).1 aRoom aliceNick ≠ []
    ∧ SEvent.userJoined aRoom aliceNick ∈
        (handleJoin (handleJoin initialState 0 aRoom (some aliceNick) 0).1 0 aRoom
          (some aliceNick) 0).2 := by decide

/-- C4 (corrected): presence dedup holds for distinct sockets. Over a
trace of joins by pairwise-distinct socket ids under one identity in a
room whose set starts empty, exactly one user_joined is emitted; closing
all of those sockets emits exactly one user_left, after which the
identity's live-connection set is empty. Per step: a join by a socket
not already in the set announces iff the set was empty (0→1), and a
disconnect announces a leave iff no other socket of the identity
remains (1→0). The claim's unconditional "exactly on the 0→1
transition" is refuted by a repeated join from one socket, which
re-announces without a transition. -/
theorem c4_presence_dedup (st : ServerState) (r n : JStr) (now : Int) (sids : List Nat)
    (hv : isValidRoomId r = true) (hnodup : sids.Nodup) (hne : sids ≠ [])
    (hempty : nickSockets st r n = []) :
    (runJoins r n now st sids).2.countP isUserJoined = 1
    ∧ (runDisconnects now (runJoins r n now st sids).1 sids).2.countP isUserLeft = 1
    ∧ nickSockets (runDisconnects now (runJoins r n now st sids).1 sids).1 r n = []
    ∧ (∀ (st' : ServerState) (sid : Nat), sid ∉ nickSockets st' r n →
        (SEvent.userJoined r n ∈ (handleJoin st' sid r (some n) now).2
          ↔ nickSockets st' r n = []))
    ∧ (∀ (st' : ServerState) (sid : Nat),
        alGet st'.connVars sid = some ⟨some r, some n⟩ →
        (SEvent.userLeft r n ∈ (handleDisconnect st' sid now).2
          ↔ (nickSockets st' r n).filter (fun x => x ≠ sid) = [])) := by
  have hfresh : ∀ s ∈ sids, s ∉ nickSockets st r n := by
    intro s _ h
    rw [hempty] at h
    exact (List.not_mem_nil s) h
  obtain ⟨hsock, hcount⟩ := runJoins_spec r n now hv sids st hnodup hfresh
  have hsock' : nickSockets (runJoins r n now st sids).1 r n = sids := by
    rw [hsock, hempty, List.nil_append]
  have hconn' : ∀ s ∈ sids,
      alGet (runJoins r n now st sids).1.connVars s = some ⟨some r, some n⟩ :=
    fun s hs => runJoins_connVars r n now hv sids st s hs hnodup
  obtain ⟨hd1, hd2⟩ := runDisconnects_spec r n now sids _ hnodup hsock' hconn'
  refine ⟨?_, ?_, hd1, ?_, ?_⟩
  · rw [hcount, if_pos ⟨hempty, hne⟩]
  · rw [hd2, if_neg hne]
  · intro st' sid hs
    exact (handleJoin_effect st' sid r n now hv hs).2.2.1
  · intro st' sid hc
    exact (handleDisconnect_effect st' sid r n now hc).2.2.1

/-- C4 witness: two tabs (sockets 0 and 1) under one identity in one
room, opened from empty and then both closed, yield exactly one join
and one leave notification. -/
theorem c4_presence_dedup_witness :
    isValidRoomId aRoom = true ∧ ([0, 1] : List Nat).Nodup
    ∧ ([0, 1] : List Nat) ≠ []
    ∧ nickSockets initialState aRoom aliceNick = []
    ∧ (runJoins aRoom aliceNick 0 initialState [0, 1]).2.countP isUserJoined = 1
    ∧ (runDisconnects 0 (runJoins aRoom aliceNick 0 initialState [0, 1]).1
        [0, 1]).2.countP isUserLeft = 1 :=
  ⟨by decide, by decide, by decide, by decide,
   (c4_presence_dedup initialState aRoom aliceNick 0 [0, 1]
     (by decide) (by decide) (by decide) (by decide)).1,
   (c4_presence_dedup initialState aRoom aliceNick 0 [0, 1]
     (by decide) (by decide) (by decide) (by decide)).2.1⟩

/-- C5: every online_count event emitted by the join handler or the
disconnect handler carries the number of distinct identities whose
live-connection set is non-empty in the resulting state (not the raw
connection count). -/
theorem c5_online_count (st : ServerState) (sid : Nat) (r : JStr) (nick : Option JStr)
    (now : Int) (c : Nat) :
    (SEvent.onlineCount r c ∈ (handleJoin st sid r nick now).2 →
      c = distinctPresentNicks (handleJoin st sid r nick now).1 r)
    ∧ (SEvent.onlineCount r c ∈ (handleDisconnect st sid now).2 →
      c = distinctPresentNicks (handleDisconnect st sid now).1 r) := by
  constructor
  · unfold handleJoin
    by_cases hv : isValidRoomId r = false
    · rw [if_pos hv]
      dsimp only
      intro hmem
      simp at hmem
    · rw [if_neg hv]
      dsimp only
      intro hmem
      rcases List.mem_cons.mp hmem with h | h
      · injection h with h1 h2
        rw [h2, ← getRoomCount_eq_distinct, getRoomCount_joinPersist]
      · exfalso
        rcases List.mem_append.mp h with h | h
        · exact onlineCount_not_mem_announce r nick now _ r c h
        · exact onlineCount_not_mem_snapshots _ r r c h
  · intro hmem
    cases htarget : disconnectTarget st sid with
    | none =>
      rw [show handleDisconnect st sid now
          = ({ st with socketMeta := alRemove st.socketMeta sid }, []) from by
        unfold handleDisconnect
        rw [htarget]] at hmem
      simp at hmem
    | some p =>
      obtain ⟨roomId, nk⟩ := p
      cases nk with
      | none =>
        rw [show handleDisconnect st sid now
            = ({ st with socketMeta := alRemove st.socketMeta sid },
               [SEvent.onlineCount roomId
                  (getRoomCount { st with socketMeta := alRemove st.socketMeta sid }
                    roomId)]) from by
          unfold handleDisconnect
          rw [htarget]] at hmem ⊢
        have h := List.mem_singleton.mp hmem
        injection h with h1 h2
        subst h1
        rw [h2, ← getRoomCount_eq_distinct]
      | some nk =>
        have hd : handleDisconnect st sid now =
            (if (nickSockets (removeMember
                { st with socketMeta := alRemove st.socketMeta sid } roomId nk sid)
                roomId nk).length > 0 then
              (removeMember { st with socketMeta := alRemove st.socketMeta sid }
                 roomId nk sid,
               [SEvent.onlineCount roomId
                  (getRoomCount (removeMember
                    { st with socketMeta := alRemove st.socketMeta sid } roomId nk sid)
                    roomId)])
            else
              (appendLog (removeMember
                 { st with socketMeta := alRemove st.socketMeta sid } roomId nk sid)
                 roomId (LogEntry.system (String.data "leave") nk now),
               [SEvent.onlineCount roomId
                  (getRoomCount (removeMember
                    { st with socketMeta := alRemove st.socketMeta sid } roomId nk sid)
                    roomId),
                SEvent.userLeft roomId nk,
                SEvent.logAppend roomId
                  (LogEntry.system (String.data "leave") nk now)])) := by
          unfold handleDisconnect
          rw [htarget]
        rw [hd] at hmem ⊢
        by_cases hb : (nickSockets (removeMember
            { st with socketMeta := alRemove st.socketMeta sid } roomId nk sid)
            roomId nk).length > 0
        · rw [if_pos hb] at hmem ⊢
          dsimp only at hmem ⊢
          have h := List.mem_singleton.mp hmem
          injection h with h1 h2
          subst h1
          rw [h2, ← getRoomCount_eq_distinct]
        · rw [if_neg hb] at hmem ⊢
          dsimp only at hmem ⊢
          rcases List.mem_cons.mp hmem with h | h
          · injection h with h1 h2
            subst h1
            rw [h2, ← getRoomCount_eq_distinct]
            rfl
          · exfalso
            simp at h

/-- C5 witness: two sockets joining under the same encrypted nick in one
room produce an online count of one distinct identity, while the raw
connection total is two. -/
theorem c5_online_count_witness :
    SEvent.onlineCount aRoom 1 ∈
      (handleJoin (handleJoin initialState 0 aRoom (some aliceNick) 0).1 1 aRoom
        (some aliceNick) 0).2
    ∧ 1 = distinctPresentNicks
        (handleJoin (handleJoin initialState 0 aRoom (some aliceNick) 0).1 1 aRoom
          (some aliceNick) 0).1 aRoom
    ∧ roomConnectionTotal
        (handleJoin (handleJoin initialState 0 aRoom (some aliceNick) 0).1 1 aRoom
          (some aliceNick) 0).1 aRoom = 2 :=
  ⟨by decide,
   (c5_online_count (handleJoin initialState 0 aRoom (some aliceNick) 0).1 1 aRoom
     (some aliceNick) 0 1).1 (by decide),
   by decide⟩
